import Mathlib

set_option linter.unusedSectionVars false
set_option linter.unusedVariables false

/-!
Verification of the stark-has-goldilocks DEEP-FRI engine.

This file shallowly embeds the Rust sources of the repository
(crates deep_ali, merkle) into Lean 4 and settles the frozen claims
about them.  The embedding is generic over the coefficient field F:
the Rust code instantiates F with the 64-bit Goldilocks prime field,
but every algorithm and every claim below is field-generic (the claims
are algebraic identities and control-flow properties), so the
development quantifies over an arbitrary `Field F` and instantiates
concrete witnesses with small prime fields `ZMod p`.

External collaborators that the core merely calls are modelled as
oracle parameters, bundled in the structure `FriOracle`:
  * `hashF` models the SHA3-256-based node compression of
    crates/merkle (a byte hash truncated to 8 bytes and reduced into
    F); the code only ever uses it as a deterministic function of the
    domain-separation label and the child field elements;
  * `groupGen` models arkworks' `Radix2EvaluationDomain::new(n).group_gen`;
  * the transcript challenges (`zA0`,`zA1`,`zA2`,`friSeedChal`) model
    the Fiat-Shamir transcript of crates/transcript: by the transcript
    contract, a challenge is a deterministic function of everything
    absorbed before it, which for the z and seed challenges is exactly
    (schedule, n0, seed_z);
  * `fsSeedFromRoots`, `indexSeed` model `tr_hash_fields_tagged` with
    the FRI/seed and FRI/index tags, and `rngIndex` models drawing one
    u64 from a `StdRng` seeded with a serialized field element.
All theorems hold for every instantiation of the oracle, and the
witnesses instantiate it with concrete computable functions.
-/

namespace StarkHas

/-! ## The direct-product ring Fp3 (crates/deep_ali/src/deep_tower.rs) -/

/-- Embeds `struct Fp3` of deep_tower.rs: the direct product F x F x F
with componentwise arithmetic (not a field extension). -/
structure Fp3 (F : Type) where
  a0 : F
  a1 : F
  a2 : F
deriving DecidableEq, Repr

namespace Fp3

variable {F : Type} [Field F]

/-- Embeds `Fp3::zero`. -/
def zero : Fp3 F := ⟨0, 0, 0⟩

/-- Embeds `Fp3::one`. -/
def one : Fp3 F := ⟨1, 1, 1⟩

/-- Embeds `Fp3::from_base`: the diagonal embedding of the base field. -/
def fromBase (x : F) : Fp3 F := ⟨x, x, x⟩

/-- Embeds `Fp3::inv`: componentwise inversion.  The Rust code calls
`.inverse().unwrap()` on each component, which panics on zero; here we
use the field inverse (which maps 0 to 0), and every theorem that
depends on inversion carries nonzero hypotheses on the components. -/
def inv (x : Fp3 F) : Fp3 F := ⟨x.a0⁻¹, x.a1⁻¹, x.a2⁻¹⟩

instance : Add (Fp3 F) := ⟨fun x y => ⟨x.a0 + y.a0, x.a1 + y.a1, x.a2 + y.a2⟩⟩

instance : Sub (Fp3 F) := ⟨fun x y => ⟨x.a0 - y.a0, x.a1 - y.a1, x.a2 - y.a2⟩⟩

instance : Mul (Fp3 F) := ⟨fun x y => ⟨x.a0 * y.a0, x.a1 * y.a1, x.a2 * y.a2⟩⟩

@[simp] theorem add_def (x y : Fp3 F) :
    x + y = ⟨x.a0 + y.a0, x.a1 + y.a1, x.a2 + y.a2⟩ := rfl

@[simp] theorem sub_def (x y : Fp3 F) :
    x - y = ⟨x.a0 - y.a0, x.a1 - y.a1, x.a2 - y.a2⟩ := rfl

@[simp] theorem mul_def (x y : Fp3 F) :
    x * y = ⟨x.a0 * y.a0, x.a1 * y.a1, x.a2 * y.a2⟩ := rfl

@[simp] theorem fromBase_a0 (x : F) : (fromBase x).a0 = x := rfl

@[simp] theorem fromBase_a1 (x : F) : (fromBase x).a1 = x := rfl

@[simp] theorem fromBase_a2 (x : F) : (fromBase x).a2 = x := rfl

theorem ext_iff {x y : Fp3 F} :
    x = y ↔ x.a0 = y.a0 ∧ x.a1 = y.a1 ∧ x.a2 = y.a2 := by
  constructor
  · rintro rfl; exact ⟨rfl, rfl, rfl⟩
  · rcases x with ⟨x0, x1, x2⟩
    rcases y with ⟨y0, y1, y2⟩
    rintro ⟨h0, h1, h2⟩
    simp_all

/-- From the Fp3 unit tests (test_inverse_correctness / the DEEP
identity): when every component is nonzero, `x * x.inv` multiplies
back to the value one expects componentwise. -/
theorem mul_inv_cancel_right {d : Fp3 F} (h0 : d.a0 ≠ 0) (h1 : d.a1 ≠ 0)
    (h2 : d.a2 ≠ 0) (x : Fp3 F) : x * d.inv * d = x := by
  rcases x with ⟨x0, x1, x2⟩
  rcases d with ⟨d0, d1, d2⟩
  simp only [inv, mul_def]
  simp only [Fp3.mk.injEq]
  refine ⟨?_, ?_, ?_⟩ <;>
    rw [mul_assoc, inv_mul_cancel₀ (by assumption), mul_one]

end Fp3

/-! ## Domain separation labels (crates/merkle/src/lib.rs) -/

/-- Embeds `struct DsLabel`: the 32-byte tagged header of four
little-endian u64 words (arity, level, position, tree_label).
`to_bytes` is injective on in-range values, so we keep the four words
as plain naturals. -/
structure DsLabel where
  arity : Nat
  level : Nat
  position : Nat
  treeLabel : Nat
deriving DecidableEq, Repr

/-- Embeds `const LEAF_LEVEL_DS: u32 = u32::MAX`. -/
def leafLevelDS : Nat := 4294967295

/-! ## Merkle commitment (crates/merkle/src/lib.rs)

The node hash `compress` is SHA3-256 over (ds bytes, child bytes),
truncated to 8 bytes and reduced into F.  NOTE (checked against the
source): `MerkleTreeChannel::new` receives `_trace_hash: [u8; 32]` and
drops it, `compress` hashes only the DS header and the children, and
`verify_opening` likewise ignores its `_trace_hash` argument, so the
trace hash appears in no hash preimage.  We model `compress` by an
oracle `hashF : DsLabel -> List F -> F`. -/

/-- Embeds `struct MerkleChannelCfg`. -/
structure MerkleChannelCfg where
  layerArities : List Nat
  treeLabel : Nat
deriving Repr

/-- Embeds `struct MerkleOpening`. -/
structure MerkleOpening (F : Type) where
  leaf : F
  path : List (List F)
  index : Nat
deriving DecidableEq, Repr

section Merkle

variable {F : Type} [Field F] [DecidableEq F]

variable (hashF : DsLabel → List F → F)

/-- Embeds the padding step of `MerkleTreeChannel::finalize`:
`if cur.len() % arity != 0 { cur.resize(cur.len() + (arity - cur.len() % arity), last) }`
where `last` is the final element. -/
def padToMultiple (arity : Nat) (nodes : List F) : List F :=
  if nodes.length % arity = 0 then nodes
  else nodes ++ List.replicate (arity - nodes.length % arity) (nodes.getLastD 0)

/-- The j-th arity-sized chunk of a list, as produced by Rust's
`chunks(arity)` on a list whose length is an exact multiple of arity
(which `padToMultiple` guarantees at every use). -/
def chunkAt (arity : Nat) (l : List F) (j : Nat) : List F :=
  (l.drop (j * arity)).take arity

/-- Embeds one iteration of the `while` loop of
`MerkleTreeChannel::finalize`: pad the current level, hash each
arity-chunk with `DsLabel { arity, level: level+1, position: i, tree_label }`
(the `level` argument here is already the parent level `level+1`). -/
def hashChunks (arity level treeLabel : Nat) (nodes : List F) : List F :=
  let padded := padToMultiple arity nodes
  (List.range (padded.length / arity)).map fun j =>
    hashF ⟨arity, level, j, treeLabel⟩ (chunkAt arity padded j)

/-- Embeds `MerkleTreeChannel::push_leaf` for the leaf at index `idx`:
the DS header uses `layer_arities[0]`, the LEAF level sentinel, the
leaf position and the tree label; the hashed payload is the flattened
tuple of field values. -/
def leafHash (cfg : MerkleChannelCfg) (idx : Nat) (values : List F) : F :=
  hashF ⟨cfg.layerArities.headD 0, leafLevelDS, idx, cfg.treeLabel⟩ values

/-- Level 0 of the tree: `push_leaf` applied to each leaf tuple in
order (the i-th pushed leaf gets position i). -/
def levelZero (cfg : MerkleChannelCfg) (leafValues : List (List F)) : List F :=
  (List.range leafValues.length).map fun i =>
    leafHash hashF cfg i (leafValues.getD i [])

/-- Embeds the `while self.levels[level].len() > 1` loop of
`MerkleTreeChannel::finalize`, structurally recursing over the arity
schedule.  The Rust loop indexes `layer_arities[level]` and would
panic past the end of the schedule; the embedding stops there instead
(all uses in the repository supply `merkleDepth` many arities, which
the lemmas below show is always enough to reach a singleton level). -/
def buildLevelsAux (treeLabel : Nat) : List Nat → Nat → List F → List (List F)
  | [], _, lvl => [lvl]
  | a :: rest, levelIdx, lvl =>
    if lvl.length ≤ 1 then [lvl]
    else lvl :: buildLevelsAux treeLabel rest (levelIdx + 1)
      (hashChunks hashF a (levelIdx + 1) treeLabel lvl)

/-- The full list of levels of a tree built by `MerkleTreeChannel::new`
followed by `push_leaf` on each tuple and `finalize`.  The
`traceHash` argument mirrors the ignored `_trace_hash: [u8; 32]`
parameter of `MerkleTreeChannel::new` (bytes modelled as naturals). -/
def treeLevels (cfg : MerkleChannelCfg) (traceHash : List Nat)
    (leafValues : List (List F)) : List (List F) :=
  buildLevelsAux hashF cfg.treeLabel cfg.layerArities 0
    (levelZero hashF cfg leafValues)

/-- The root returned by `finalize`: `self.levels.last().unwrap()[0]`. -/
def treeRoot (cfg : MerkleChannelCfg) (traceHash : List Nat)
    (leafValues : List (List F)) : F :=
  ((treeLevels hashF cfg traceHash leafValues).getLastD []).headD 0

/-- One member of the padded arity-group of index `idx`, as read by
`MerkleTreeChannel::open`: position `group_start + i`, with
out-of-range positions replaced by the last node of the level. -/
def groupElem (arity : Nat) (nodes : List F) (idx : Nat) (i : Nat) : F :=
  if idx / arity * arity + i < nodes.length then
    nodes.getD (idx / arity * arity + i) 0
  else nodes.getLastD 0

/-- The padded arity-group of index `idx` at one level, as read by
`MerkleTreeChannel::open`. -/
def openGroup (arity : Nat) (nodes : List F) (idx : Nat) : List F :=
  (List.range arity).map (groupElem arity nodes idx)

/-- Embeds the sibling extraction of `MerkleTreeChannel::open`: the
group members whose global position differs from `idx`. -/
def openSiblings (arity : Nat) (nodes : List F) (idx : Nat) : List F :=
  ((List.range arity).filter fun i => idx / arity * arity + i ≠ idx).map
    (groupElem arity nodes idx)

/-- Embeds the level loop of `MerkleTreeChannel::open`
(`for level in 0..self.levels.len() - 1`): emit the siblings of the
current index at each non-root level, then divide the index by the
level arity. -/
def openPathAux : List Nat → List (List F) → Nat → List (List F)
  | _, [], _ => []
  | _, [_], _ => []
  | arities, nodes :: next :: rest, idx =>
    openSiblings (arities.headD 0) nodes idx ::
      openPathAux arities.tail (next :: rest) (idx / arities.headD 0)

/-- Embeds `MerkleTreeChannel::open(index)` on a finalized tree with
levels `levels`: the leaf is `levels[0][index]`. -/
def openAt (levels : List (List F)) (arities : List Nat) (index : Nat) :
    MerkleOpening F :=
  ⟨(levels.headD []).getD index 0, openPathAux arities levels index, index⟩

/-- Embeds the reconstruction loop of
`MerkleTreeChannel::verify_opening`: walk the sibling groups, insert
the running hash at position `idx % arity`, fail (None) when the
sibling list is too short for the arity (the Rust `sibs.next()`
returning `None`), and rehash with the parent DS label.  Extra
siblings beyond `arity - 1` are ignored, exactly as the Rust iterator
leaves them unconsumed.  (With `arity = 0` the Rust code would panic
on `idx % arity`; the embedding is total there, and no caller in the
repository uses arity 0.) -/
def verifyChain (treeLabel : Nat) :
    List Nat → Nat → F → Nat → List (List F) → Option F
  | _, _, cur, _, [] => some cur
  | arities, level, cur, idx, sibs :: rest =>
    if sibs.length + 1 < arities.headD 0 then none
    else
      verifyChain treeLabel arities.tail (level + 1)
        (hashF ⟨arities.headD 0, level + 1, idx / arities.headD 0, treeLabel⟩
          (sibs.take (idx % arities.headD 0) ++ cur ::
            (sibs.drop (idx % arities.headD 0)).take
              (arities.headD 0 - 1 - idx % arities.headD 0)))
        (idx / arities.headD 0) rest

/-- Embeds `MerkleTreeChannel::verify_opening`: reconstruct the chain
and compare with the root.  The `_trace_hash` argument is ignored by
the Rust code and by this embedding. -/
def verifyOpening (cfg : MerkleChannelCfg) (root : F)
    (opening : MerkleOpening F) (traceHash : List Nat) : Bool :=
  match verifyChain hashF cfg.treeLabel cfg.layerArities 0
      opening.leaf opening.index opening.path with
  | some v => decide (v = root)
  | none => false

end Merkle

/-- Embeds the loop of `merkle_depth` in fri.rs:
`depth = 1; while cur > arity { cur = (cur + arity - 1) / arity; depth += 1 }`.
The Rust function asserts `arity >= 2`; the embedding folds that bound
into the loop guard to stay total (every use in the repository has
arity at least 2). -/
def merkleDepthGo (a : Nat) (cur : Nat) : Nat :=
  if h : 2 ≤ a ∧ a < cur then 1 + merkleDepthGo a ((cur + a - 1) / a) else 1
termination_by cur
decreasing_by
  have h2 : cur * 2 ≤ cur * a := Nat.mul_le_mul_left cur h.1
  have h3 : cur + a - 1 < cur * 2 := by omega
  exact (Nat.div_lt_iff_lt_mul (by omega)).mpr (by omega)

/-- Embeds `merkle_depth(leaves, arity)`. -/
def merkleDepth (leaves arity : Nat) : Nat := merkleDepthGo arity leaves

/-! ## List helper lemmas -/

theorem getD_range_map {α : Type} (f : Nat → α) {n i : Nat} (d : α) (h : i < n) :
    ((List.range n).map f).getD i d = f i := by
  rw [List.getD_eq_getElem _ d (by simpa using h)]
  simp

theorem headD_eq_getD_zero {α : Type} (l : List α) (d : α) :
    l.headD d = l.getD 0 d := by
  cases l <;> rfl

theorem getLastD_cons_of_ne_nil {α : Type} (x : α) (l : List α) (d : α)
    (h : l ≠ []) : (x :: l).getLastD d = l.getLastD d := by
  cases l with
  | nil => simp at h
  | cons y ys => rfl

theorem take_left_of_len {α : Type} {l1 l2 : List α} {n : Nat}
    (h : l1.length = n) : (l1 ++ l2).take n = l1 := by
  subst h; exact List.take_left l1 l2

theorem drop_left_of_len {α : Type} {l1 l2 : List α} {n : Nat}
    (h : l1.length = n) : (l1 ++ l2).drop n = l2 := by
  subst h; exact List.drop_left l1 l2

theorem take_all_of_len {α : Type} {l : List α} {n : Nat}
    (h : l.length = n) : l.take n = l := by
  subst h; exact List.take_length l

/-! ## Merkle structural lemmas -/

section MerkleLemmas

variable {F : Type} [Field F] [DecidableEq F]

variable (hashF : DsLabel → List F → F)

theorem padToMultiple_le_length (a : Nat) (nodes : List F) :
    nodes.length ≤ (padToMultiple a nodes).length := by
  unfold padToMultiple
  split
  · exact le_refl _
  · simp

theorem ceil_div_mul (a n : Nat) (ha : 0 < a) :
    ((n + a - 1) / a) * a = if n % a = 0 then n else n + (a - n % a) := by
  have hdm := Nat.div_add_mod n a
  have hr : n % a < a := Nat.mod_lt _ ha
  by_cases h : n % a = 0
  · rw [if_pos h]
    have e0 : n + a - 1 = a * (n / a) + (a - 1) := by omega
    rw [e0, Nat.mul_add_div ha, Nat.div_eq_of_lt (by omega : a - 1 < a)]
    have e1 : (n / a + 0) * a = a * (n / a) := by ring
    omega
  · rw [if_neg h]
    have e0 : n + a - 1 = a * (n / a) + (n % a - 1 + a) := by omega
    rw [e0, Nat.mul_add_div ha, Nat.add_div_right _ ha,
      Nat.div_eq_of_lt (by omega : n % a - 1 < a)]
    have e1 : (n / a + (0 + 1)) * a = a * (n / a) + a := by ring
    omega

theorem padToMultiple_length {a : Nat} (nodes : List F) (ha : 0 < a) :
    (padToMultiple a nodes).length = ((nodes.length + a - 1) / a) * a := by
  rw [ceil_div_mul a nodes.length ha]
  by_cases h : nodes.length % a = 0
  · rw [padToMultiple, if_pos h, if_pos h]
  · rw [padToMultiple, if_neg h, if_neg h]
    simp

theorem padToMultiple_getD {a : Nat} (nodes : List F) (p : Nat)
    (hp : p < (padToMultiple a nodes).length) :
    (padToMultiple a nodes).getD p 0 =
      if p < nodes.length then nodes.getD p 0 else nodes.getLastD 0 := by
  by_cases h : nodes.length % a = 0
  · rw [padToMultiple, if_pos h] at hp ⊢
    rw [if_pos hp]
  · rw [padToMultiple, if_neg h] at hp ⊢
    by_cases hlt : p < nodes.length
    · rw [if_pos hlt]
      rw [List.getD_eq_getElem _ _ hp, List.getD_eq_getElem _ _ hlt]
      exact List.getElem_append_left hlt
    · rw [if_neg hlt]
      rw [List.getD_eq_getElem _ _ hp]
      rw [List.getElem_append_right (le_of_not_lt hlt)]
      simp

theorem hashChunks_length {a : Nat} (level treeLabel : Nat) (nodes : List F)
    (ha : 0 < a) :
    (hashChunks hashF a level treeLabel nodes).length
      = (nodes.length + a - 1) / a := by
  rw [hashChunks]
  simp only [List.length_map, List.length_range]
  rw [padToMultiple_length nodes ha, Nat.mul_div_cancel _ ha]

theorem hashChunks_getD {a : Nat} (level treeLabel : Nat) (nodes : List F)
    {j : Nat} (ha : 0 < a) (hj : j < (nodes.length + a - 1) / a) :
    (hashChunks hashF a level treeLabel nodes).getD j 0
      = hashF ⟨a, level, j, treeLabel⟩ (chunkAt a (padToMultiple a nodes) j) := by
  rw [hashChunks]
  have hb : j < (padToMultiple a nodes).length / a := by
    rw [padToMultiple_length nodes ha, Nat.mul_div_cancel _ ha]
    exact hj
  exact getD_range_map _ _ hb

theorem chunkAt_eq_map {a : Nat} (l : List F) (j : Nat)
    (h : (j + 1) * a ≤ l.length) :
    chunkAt a l j = (List.range a).map fun i => l.getD (j * a + i) 0 := by
  have hsm : (j + 1) * a = j * a + a := by ring
  apply List.ext_getElem
  · simp only [chunkAt, List.length_take, List.length_drop, List.length_map,
      List.length_range]
    omega
  · intro i h1 h2
    simp only [List.length_map, List.length_range] at h2
    simp only [chunkAt]
    have hidx : j * a + i < l.length := by omega
    rw [List.getElem_map, List.getElem_range]
    rw [List.getElem_take, List.getElem_drop]
    rw [List.getD_eq_getElem _ _ hidx]

theorem openGroup_eq_chunkAt {a : Nat} (nodes : List F) (idx : Nat)
    (ha : 0 < a) (hidx : idx < nodes.length) :
    openGroup a nodes idx = chunkAt a (padToMultiple a nodes) (idx / a) := by
  have hpadlen : (padToMultiple a nodes).length = ((nodes.length + a - 1) / a) * a :=
    padToMultiple_length nodes ha
  have hdvd : a ∣ (padToMultiple a nodes).length := by
    rw [hpadlen]; exact dvd_mul_left a _
  have hlt : idx < (padToMultiple a nodes).length :=
    lt_of_lt_of_le hidx (padToMultiple_le_length a nodes)
  have hdivlt : idx / a < (padToMultiple a nodes).length / a :=
    Nat.div_lt_div_of_lt_of_dvd hdvd hlt
  have hbound : (idx / a + 1) * a ≤ (padToMultiple a nodes).length := by
    calc (idx / a + 1) * a ≤ (padToMultiple a nodes).length / a * a :=
          Nat.mul_le_mul_right a hdivlt
      _ = (padToMultiple a nodes).length := Nat.div_mul_cancel hdvd
  rw [chunkAt_eq_map _ _ hbound, openGroup]
  apply List.ext_getElem
  · simp
  · intro i h1 h2
    simp only [List.length_map, List.length_range] at h1
    rw [List.getElem_map, List.getElem_range, List.getElem_map, List.getElem_range]
    have hplt : idx / a * a + i < (padToMultiple a nodes).length := by
      have hsm : (idx / a + 1) * a = idx / a * a + a := by ring
      omega
    rw [padToMultiple_getD nodes _ hplt]
    rfl

theorem filter_ne_range (a pos : Nat) (hpos : pos < a) :
    ((List.range a).filter fun i => i ≠ pos)
      = List.range pos ++ (List.range (a - pos - 1)).map (pos + 1 + ·) := by
  have hsplit : a = pos + 1 + (a - pos - 1) := by omega
  conv_lhs => rw [hsplit, List.range_add]
  rw [List.filter_append, List.range_succ, List.filter_append]
  rw [List.filter_eq_self.mpr (by intro x hx; simpa using Nat.ne_of_lt (List.mem_range.mp hx))]
  have h1 : List.filter (fun i => decide (i ≠ pos)) [pos] = [] := by simp
  rw [h1, List.append_nil]
  congr 1
  rw [List.filter_map]
  rw [List.filter_eq_self.mpr]
  intro x hx
  simp only [Function.comp_apply]
  have : pos + 1 + x ≠ pos := by omega
  simpa using this

theorem range_map_decomp {α : Type} (g : Nat → α) (a pos : Nat) (h : pos < a) :
    (List.range a).map g
      = (List.range pos).map g
        ++ g pos :: (List.range (a - pos - 1)).map fun k => g (pos + 1 + k) := by
  have hsplit : a = pos + 1 + (a - pos - 1) := by omega
  conv_lhs => rw [hsplit, List.range_add]
  rw [List.map_append, List.range_succ, List.map_append, List.map_map]
  simp only [List.map_cons, List.map_nil]
  rw [List.append_assoc]
  congr 1

theorem openSiblings_decomp {a : Nat} (nodes : List F) (idx : Nat) (ha : 0 < a) :
    openSiblings a nodes idx
      = (List.range (idx % a)).map (groupElem a nodes idx)
        ++ (List.range (a - idx % a - 1)).map
            fun k => groupElem a nodes idx (idx % a + 1 + k) := by
  have hdm : idx / a * a + idx % a = idx := by
    have := Nat.div_add_mod idx a
    have : a * (idx / a) = idx / a * a := Nat.mul_comm _ _
    omega
  have hpos : idx % a < a := Nat.mod_lt _ ha
  rw [openSiblings]
  rw [List.filter_congr (q := fun i => decide (i ≠ idx % a)) (by
    intro x hx
    simp only [decide_eq_decide]
    omega)]
  rw [filter_ne_range a (idx % a) hpos, List.map_append, List.map_map]
  rfl

theorem openSiblings_length {a : Nat} (nodes : List F) (idx : Nat) (ha : 0 < a) :
    (openSiblings a nodes idx).length = a - 1 := by
  rw [openSiblings_decomp nodes idx ha]
  have hpos : idx % a < a := Nat.mod_lt _ ha
  simp only [List.length_append, List.length_map, List.length_range]
  omega

theorem groupElem_self {a : Nat} (nodes : List F) (idx : Nat)
    (hidx : idx < nodes.length) :
    groupElem a nodes idx (idx % a) = nodes.getD idx 0 := by
  have hdm : idx / a * a + idx % a = idx := by
    have h1 := Nat.div_add_mod idx a
    have h2 : a * (idx / a) = idx / a * a := Nat.mul_comm _ _
    omega
  rw [groupElem, hdm, if_pos hidx]

theorem children_reconstruct {a : Nat} (nodes : List F) (idx : Nat)
    (ha : 0 < a) (hidx : idx < nodes.length) :
    (openSiblings a nodes idx).take (idx % a)
        ++ nodes.getD idx 0 ::
          ((openSiblings a nodes idx).drop (idx % a)).take (a - 1 - idx % a)
      = openGroup a nodes idx := by
  have hpos : idx % a < a := Nat.mod_lt _ ha
  rw [openSiblings_decomp nodes idx ha, openGroup]
  have hlen1 : ((List.range (idx % a)).map (groupElem a nodes idx)).length
      = idx % a := by simp
  have hlen2 : ((List.range (a - idx % a - 1)).map
      fun k => groupElem a nodes idx (idx % a + 1 + k)).length = a - 1 - idx % a := by
    simp only [List.length_map, List.length_range]
    omega
  rw [take_left_of_len hlen1, drop_left_of_len hlen1, take_all_of_len hlen2]
  rw [range_map_decomp (groupElem a nodes idx) a (idx % a) hpos]
  rw [groupElem_self nodes idx hidx]

theorem div_lt_ceil {a : Nat} (ha : 0 < a) {idx n : Nat} (h : idx < n) :
    idx / a < (n + a - 1) / a := by
  rw [Nat.div_lt_iff_lt_mul ha]
  have hc := ceil_div_mul a n ha
  by_cases hm : n % a = 0
  · rw [if_pos hm] at hc
    omega
  · rw [if_neg hm] at hc
    have : n % a < a := Nat.mod_lt _ ha
    omega

theorem hashChunks_parent {a : Nat} (lv tl : Nat) (nodes : List F) {idx : Nat}
    (ha : 0 < a) (hidx : idx < nodes.length) :
    (hashChunks hashF a lv tl nodes).getD (idx / a) 0
      = hashF ⟨a, lv, idx / a, tl⟩ (openGroup a nodes idx) := by
  rw [hashChunks_getD hashF lv tl nodes ha (div_lt_ceil ha hidx),
    openGroup_eq_chunkAt nodes idx ha hidx]

theorem hashChunks_pos_length {a : Nat} (lv tl : Nat) (nodes : List F)
    (ha : 0 < a) (hn : nodes ≠ []) :
    0 < (hashChunks hashF a lv tl nodes).length := by
  rw [hashChunks_length hashF lv tl nodes ha]
  have hpos : 0 < nodes.length := List.length_pos.mpr hn
  exact (Nat.one_le_div_iff ha).mpr (by omega)

theorem buildLevelsAux_ne_nil (tl : Nat) (arities : List Nat) (li : Nat)
    (lvl : List F) : buildLevelsAux hashF tl arities li lvl ≠ [] := by
  cases arities with
  | nil => simp [buildLevelsAux]
  | cons a rest =>
    simp only [buildLevelsAux]
    split <;> simp

theorem verifyChain_openPathAux (tl : Nat) :
    ∀ (arities : List Nat) (levelIdx idx : Nat) (lvl : List F),
    idx < lvl.length → (∀ a ∈ arities, 2 ≤ a) →
    ((buildLevelsAux hashF tl arities levelIdx lvl).getLastD []).length = 1 →
    verifyChain hashF tl arities levelIdx (lvl.getD idx 0) idx
        (openPathAux arities (buildLevelsAux hashF tl arities levelIdx lvl) idx)
      = some (((buildLevelsAux hashF tl arities levelIdx lvl).getLastD []).headD 0) := by
  intro arities
  induction arities with
  | nil =>
    intro levelIdx idx lvl hidx _ hlast
    simp only [buildLevelsAux] at hlast ⊢
    have hlvl : lvl.length = 1 := by simpa using hlast
    have hidx0 : idx = 0 := by omega
    subst hidx0
    simp only [openPathAux, verifyChain]
    rw [show ([lvl] : List (List F)).getLastD [] = lvl from rfl,
      headD_eq_getD_zero]
  | cons a rest ih =>
    intro levelIdx idx lvl hidx hmem hlast
    have ha2 : 2 ≤ a := hmem a (List.mem_cons_self a rest)
    have ha : 0 < a := by omega
    by_cases hsmall : lvl.length ≤ 1
    · rw [buildLevelsAux, if_pos hsmall] at hlast ⊢
      have hlvl : lvl.length = 1 := by simpa using hlast
      have hidx0 : idx = 0 := by omega
      subst hidx0
      simp only [openPathAux, verifyChain]
      rw [show ([lvl] : List (List F)).getLastD [] = lvl from rfl,
        headD_eq_getD_zero]
    · rw [buildLevelsAux, if_neg hsmall] at hlast ⊢
      rcases hB : buildLevelsAux hashF tl rest (levelIdx + 1)
          (hashChunks hashF a (levelIdx + 1) tl lvl) with _ | ⟨b, bt⟩
      · exact absurd hB (buildLevelsAux_ne_nil hashF tl rest _ _)
      · rw [hB] at hlast
        rw [getLastD_cons_of_ne_nil _ _ _ (by simp)] at hlast
        rw [getLastD_cons_of_ne_nil _ _ _ (by simp)]
        simp only [openPathAux, List.headD_cons, List.tail_cons]
        simp only [verifyChain, List.headD_cons, List.tail_cons]
        rw [if_neg (by rw [openSiblings_length lvl idx ha]; omega)]
        rw [children_reconstruct lvl idx ha hidx]
        rw [← hashChunks_parent hashF (levelIdx + 1) tl lvl ha hidx]
        have hplen : idx / a < (hashChunks hashF a (levelIdx + 1) tl lvl).length := by
          rw [hashChunks_length hashF _ _ _ ha]
          exact div_lt_ceil ha hidx
        have hlast2 : ((buildLevelsAux hashF tl rest (levelIdx + 1)
            (hashChunks hashF a (levelIdx + 1) tl lvl)).getLastD []).length = 1 := by
          rw [hB]
          exact hlast
        have hih := ih (levelIdx + 1) (idx / a)
          (hashChunks hashF a (levelIdx + 1) tl lvl) hplen
          (fun x hx => hmem x (List.mem_cons_of_mem a hx)) hlast2
        rw [hB] at hih
        exact hih

theorem levelZero_length (cfg : MerkleChannelCfg) (leafValues : List (List F)) :
    (levelZero hashF cfg leafValues).length = leafValues.length := by
  simp [levelZero]

theorem buildLevelsAux_headD (tl : Nat) (arities : List Nat) (li : Nat)
    (lvl : List F) : (buildLevelsAux hashF tl arities li lvl).headD [] = lvl := by
  cases arities with
  | nil => simp [buildLevelsAux]
  | cons a rest =>
    simp only [buildLevelsAux]
    split <;> simp

/-- Honest-opening completeness of the Merkle channel: an opening
produced by `open` on a tree with the same configuration and leaves
verifies against the root of that tree, for any values of the
(ignored) trace-hash arguments, provided the arity schedule is deep
enough that the level construction reached a singleton root level. -/
theorem verifyOpening_complete (cfg : MerkleChannelCfg) (th1 th2 th3 : List Nat)
    (leafValues : List (List F)) (idx : Nat)
    (hidx : idx < leafValues.length)
    (hmem : ∀ a ∈ cfg.layerArities, 2 ≤ a)
    (hlast : ((treeLevels hashF cfg th1 leafValues).getLastD []).length = 1) :
    verifyOpening hashF cfg (treeRoot hashF cfg th1 leafValues)
      (openAt (treeLevels hashF cfg th2 leafValues) cfg.layerArities idx) th3
      = true := by
  have hlen : idx < (levelZero hashF cfg leafValues).length := by
    rw [levelZero_length]
    exact hidx
  have hchain := verifyChain_openPathAux hashF cfg.treeLabel cfg.layerArities 0 idx
    (levelZero hashF cfg leafValues) hlen hmem hlast
  rw [verifyOpening]
  simp only [openAt, treeLevels, treeRoot] at hchain ⊢
  rw [buildLevelsAux_headD]
  rw [hchain]
  simp

/-- With arity a >= 2 and a nonempty leaf level, supplying
`merkleDepth` many copies of the arity (as `fri_build_transcript` and
`deep_fri_verify` both do via `vec![arity; depth]`) makes the level
construction terminate in a singleton root level. -/
theorem buildLevels_replicate_last_one (tl : Nat) (a : Nat) (ha2 : 2 ≤ a) :
    ∀ (cur : Nat) (levelIdx : Nat) (lvl : List F), lvl.length = cur → 1 ≤ cur →
    ((buildLevelsAux hashF tl (List.replicate (merkleDepthGo a cur) a)
        levelIdx lvl).getLastD []).length = 1 := by
  intro cur
  induction cur using Nat.strong_induction_on with
  | _ cur ih =>
    intro levelIdx lvl hlen hpos
    have ha : 0 < a := by omega
    have hne : lvl ≠ [] := by
      intro hnil
      rw [hnil] at hlen
      simp at hlen
      omega
    by_cases hgt : a < cur
    · rw [merkleDepthGo, dif_pos ⟨ha2, hgt⟩]
      have hsmall : ¬ lvl.length ≤ 1 := by omega
      rw [Nat.add_comm 1 (merkleDepthGo a ((cur + a - 1) / a)),
        List.replicate_succ, buildLevelsAux, if_neg hsmall]
      have hplen : (hashChunks hashF a (levelIdx + 1) tl lvl).length
          = (cur + a - 1) / a := by
        rw [hashChunks_length hashF _ _ _ ha, hlen]
      have hceil_lt : (cur + a - 1) / a < cur := by
        have h2 : cur * 2 ≤ cur * a := Nat.mul_le_mul_left cur ha2
        exact (Nat.div_lt_iff_lt_mul ha).mpr (by omega)
      have hceil_pos : 1 ≤ (cur + a - 1) / a :=
        (Nat.one_le_div_iff ha).mpr (by omega)
      have hrec := ih ((cur + a - 1) / a) hceil_lt (levelIdx + 1)
        (hashChunks hashF a (levelIdx + 1) tl lvl) hplen hceil_pos
      rw [getLastD_cons_of_ne_nil _ _ _ (buildLevelsAux_ne_nil hashF tl _ _ _)]
      exact hrec
    · rw [merkleDepthGo, dif_neg (by omega)]
      rw [List.replicate_succ, List.replicate_zero]
      by_cases hsmall : lvl.length ≤ 1
      · rw [buildLevelsAux, if_pos hsmall]
        rw [show ([lvl] : List (List F)).getLastD [] = lvl from rfl]
        omega
      · rw [buildLevelsAux, if_neg hsmall]
        rw [buildLevelsAux]
        rw [getLastD_cons_of_ne_nil _ _ _ (by simp)]
        rw [show ∀ l : List F, ([l] : List (List F)).getLastD [] = l from fun _ => rfl]
        rw [hashChunks_length hashF _ _ _ ha, hlen]
        have h1 : cur + a - 1 = (cur - 1) + a := by omega
        rw [h1, Nat.add_div_right _ ha, Nat.div_eq_of_lt (by omega)]

end MerkleLemmas

/-! ## DEEP-FRI data model and oracle (crates/deep_ali/src/fri.rs) -/

/-- Embeds `usize::next_power_of_two` (smallest power of two that is
at least n; 1 for n = 0), with explicit fuel so that the kernel can
evaluate it.  The accumulator doubles each step, so n steps always
suffice. -/
def nextPow2Fuel : Nat → Nat → Nat → Nat
  | 0, _, acc => acc
  | fuel + 1, n, acc => if n ≤ acc then acc else nextPow2Fuel fuel n (2 * acc)

/-- Smallest power of two at least `n` (see `nextPow2Fuel`). -/
def nextPow2 (n : Nat) : Nat := nextPow2Fuel n n 1

/-- Oracle bundle for the external collaborators of the FRI core (see
the header comment): the SHA3-based Merkle compression, the arkworks
radix-2 domain generator, the Fiat-Shamir transcript challenges (all
deterministic functions of the absorbed statement, per the transcript
contract), the two tagged transcript hashes of fri.rs
(`fs_seed_from_roots`, `index_seed`), the StdRng u64 draw used by
`index_from_seed`, and the byte serialization of a field element used
to form the 32-byte trace hash (which the Merkle code then ignores). -/
structure FriOracle (F : Type) where
  hashF : DsLabel → List F → F
  groupGen : Nat → F
  zA0 : List Nat → Nat → Nat → F
  zA1 : List Nat → Nat → Nat → F
  zA2 : List Nat → Nat → Nat → F
  friSeedChal : List Nat → Nat → Nat → F
  fsSeedFromRoots : List F → F
  indexSeed : F → Nat → Nat → F
  rngIndex : F → Nat
  serializeF : F → List Nat
  zlHash : Nat → Nat → Nat → F
  rngStream : F → Nat → F

section Fri

variable {F : Type} [Field F] [DecidableEq F]

/-- Embeds `struct FriDomain { omega, size }`. -/
structure FriDomain (F : Type) where
  omega : F
  size : Nat

/-- Embeds `FriDomain::new_radix2(size)`: the omega is the arkworks
radix-2 domain generator for that size. -/
def FriDomain.newRadix2 (O : FriOracle F) (size : Nat) : FriDomain F :=
  ⟨O.groupGen size, size⟩

/-- Embeds the accumulator loop of `build_z_pows`:
`acc = 1; for _ in 0..m { push(acc); acc *= z_l }`. -/
def buildZPowsGo (z : F) : Nat → F → List F
  | 0, _ => []
  | m + 1, acc => acc :: buildZPowsGo z m (acc * z)

/-- Embeds `build_z_pows(z_l, m) = [1, z_l, z_l^2, ...]` (length m). -/
def buildZPows (z : F) (m : Nat) : List F := buildZPowsGo z m 1

/-- Embeds `build_omega_pows` of deep_ali/src/lib.rs, which is the
same accumulator loop as `build_z_pows`. -/
def buildOmegaPows (omega : F) (n : Nat) : List F := buildZPows omega n

theorem buildZPowsGo_length (z : F) (m : Nat) (acc : F) :
    (buildZPowsGo z m acc).length = m := by
  induction m generalizing acc with
  | zero => rfl
  | succ k ih => simp [buildZPowsGo, ih]

theorem buildZPowsGo_getD (z : F) (m : Nat) (acc : F) {j : Nat} (hj : j < m) :
    (buildZPowsGo z m acc).getD j 0 = acc * z ^ j := by
  induction m generalizing acc j with
  | zero => omega
  | succ k ih =>
    cases j with
    | zero => simp [buildZPowsGo]
    | succ i =>
      have hi : i < k := by omega
      simp only [buildZPowsGo, List.getD_cons_succ]
      rw [ih (acc * z) hi]
      ring

theorem buildZPows_getD (z : F) (m : Nat) {j : Nat} (hj : j < m) :
    (buildZPows z m).getD j 0 = z ^ j := by
  rw [buildZPows, buildZPowsGo_getD z m 1 hj, one_mul]

/-- Embeds `compute_q_layer_fp3`: the DEEP quotient over the product
ring, `q[i] = (from_base f[i] - from_base f[0]) * (from_base x_i - z).inv`
with `x_i = omega^i` (the Rust loop maintains `x *= omega`). -/
def computeQLayerFp3 (f : List F) (z : Fp3 F) (omega : F) : List (Fp3 F) :=
  (List.range f.length).map fun i =>
    (Fp3.fromBase (f.getD i 0) - Fp3.fromBase (f.getD 0 0))
      * (Fp3.fromBase (omega ^ i) - z).inv

/-- Embeds `fri_fold_layer_impl`: strided fold,
`out[b] = sum over j < m of evals[b + j * (n/m)] * z_pows[j]`.
The `omega` parameter is accepted and ignored, exactly as in the Rust
function (its body never reads `omega`; the sequential branch is the
semantics, the rayon branch computes the same sums). -/
def friFoldLayerImpl (evals : List F) (z : F) (omega : F) (m : Nat) : List F :=
  (List.range (evals.length / m)).map fun b =>
    (List.range m).foldl
      (fun acc j => acc + evals.getD (b + j * (evals.length / m)) 0
        * (buildZPows z m).getD j 0) 0

/-- Embeds `fri_fold_layer`: derives the domain generator for the
evaluation length (via the arkworks domain, modelled by the oracle)
and calls the impl (which ignores it). -/
def friFoldLayer (O : FriOracle F) (evals : List F) (z : F) (m : Nat) : List F :=
  friFoldLayerImpl evals z (O.groupGen evals.length) m

/-- Embeds the first loop of `compute_s_layer` (identical in shape to
`fri_fold_layer_impl`): the folded vector of length n/m. -/
def computeSLayerFolded (f : List F) (z : F) (m : Nat) : List F :=
  (List.range (f.length / m)).map fun b =>
    (List.range m).foldl
      (fun acc j => acc + f.getD (b + j * (f.length / m)) 0
        * (buildZPows z m).getD j 0) 0

/-- Embeds the second loop of `compute_s_layer`: start from
`vec![F::zero(); n]` and, for every bucket b and every j < m, write
`folded[b]` at position `b + j * n_next`. -/
def computeSLayer (f : List F) (z : F) (m : Nat) : List F :=
  (List.range (f.length / m)).foldl
    (fun acc b => (List.range m).foldl
      (fun acc2 j => acc2.set (b + j * (f.length / m))
        ((computeSLayerFolded f z m).getD b 0)) acc)
    (List.replicate f.length 0)

/-- Embeds `layer_sizes_from_schedule` (the divisibility assert is a
precondition carried by the theorems below). -/
def layerSizesFromSchedule : Nat → List Nat → List Nat
  | n0, [] => [n0]
  | n0, m :: rest => n0 :: layerSizesFromSchedule (n0 / m) rest

/-- Embeds `pick_arity_for_layer`. -/
def pickArityForLayer (n requestedM : Nat) : Nat :=
  if 128 ≤ requestedM ∧ n % 128 = 0 then 128
  else if 64 ≤ requestedM ∧ n % 64 = 0 then 64
  else if 32 ≤ requestedM ∧ n % 32 = 0 then 32
  else if 16 ≤ requestedM ∧ n % 16 = 0 then 16
  else if 8 ≤ requestedM ∧ n % 8 = 0 then 8
  else if 4 ≤ requestedM ∧ n % 4 = 0 then 4
  else if n % 2 = 0 then 2
  else 1

/-- Embeds `struct FriProverParams`. -/
structure FriProverParams where
  schedule : List Nat
  seedZ : Nat

/-- Embeds `struct FriLayerCommitment`. -/
structure FriLayerCommitment (F : Type) where
  n : Nat
  m : Nat
  root : F

/-- Embeds `struct FriTranscript`. -/
structure FriTranscript (F : Type) where
  schedule : List Nat
  layers : List (FriLayerCommitment F)

/-- Embeds `struct FriProverState`. -/
structure FriProverState (F : Type) where
  fLayers : List (List F)
  sLayers : List (List F)
  qLayers : List (List (Fp3 F))
  transcript : FriTranscript F
  omegaLayers : List F
  zLayers : List F

/-- Embeds `struct LayerQueryRef`. -/
structure LayerQueryRef where
  i : Nat
  childPos : Nat
  parentIndex : Nat
  parentPos : Nat
deriving DecidableEq, Repr

/-- Embeds `struct FriQueryOpenings`. -/
structure FriQueryOpenings (F : Type) where
  perLayerRefs : List LayerQueryRef
  finalIndex : Nat
  finalPair : F × F

/-- Embeds `struct LayerOpenPayload` (the 9 field elements of a
per-layer query payload in the Fp3 variant). -/
structure LayerOpenPayload (F : Type) where
  fI : F
  f0 : F
  sI : F
  qA0 : F
  qA1 : F
  qA2 : F
  xI : F
  fParentB : F
  sParentB : F
deriving DecidableEq, Repr

/-- Embeds `struct FriQueryPayload`. -/
structure FriQueryPayload (F : Type) where
  perLayerRefs : List LayerQueryRef
  perLayerPayloads : List (LayerOpenPayload F)
  finalIndex : Nat
  finalPair : F × F

/-- Embeds `struct LayerProof`. -/
structure LayerProof (F : Type) where
  openings : List (MerkleOpening F)

/-- Embeds `struct FriLayerProofs`. -/
structure FriLayerProofs (F : Type) where
  layers : List (LayerProof F)

/-- Embeds `struct DeepFriParams`. -/
structure DeepFriParams where
  schedule : List Nat
  r : Nat
  seedZ : Nat

/-- Embeds `struct DeepFriProof`. -/
structure DeepFriProof (F : Type) where
  roots : List F
  layerProofs : FriLayerProofs F
  queries : List (FriQueryPayload F)
  n0 : Nat
  omega0 : F

/-- Default layer commitment used for out-of-range list reads (the
Rust code would panic on those reads; all theorems establish the
indices are in range). -/
def dfltCommit : FriLayerCommitment F := ⟨0, 0, 0⟩

/-- Default query reference for out-of-range reads. -/
def dfltRef : LayerQueryRef := ⟨0, 0, 0, 0⟩

/-- Default payload for out-of-range reads. -/
def dfltPayload : LayerOpenPayload F := ⟨0, 0, 0, 0, 0, 0, 0, 0, 0⟩

/-- Default query payload for out-of-range reads. -/
def dfltQuery : FriQueryPayload F := ⟨[], [], 0, (0, 0)⟩

/-- Default query openings record for out-of-range reads. -/
def dfltQO : FriQueryOpenings F := ⟨[], 0, (0, 0)⟩

/-- Default Merkle opening for out-of-range reads. -/
def dfltOpening : MerkleOpening F := ⟨0, [], 0⟩

/-- The single DEEP challenge z in Fp3, drawn by Fiat-Shamir right
after the statement binding: the three transcript challenges
`z_fp3/a0`, `z_fp3/a1`, `z_fp3/a2`, each a deterministic function of
(schedule, n0, seed_z).  Both `fri_build_transcript` and
`deep_fri_verify` reconstruct exactly this value. -/
def fsZ (O : FriOracle F) (schedule : List Nat) (n0 seedZ : Nat) : Fp3 F :=
  ⟨O.zA0 schedule n0 seedZ, O.zA1 schedule n0 seedZ, O.zA2 schedule n0 seedZ⟩

/-- The leaf tuples committed for one FRI layer, as pushed by both
`fri_build_transcript` and `fri_prove_queries`:
`[f_layers[ell][i], s_layers[ell][i], q.a0, q.a1, q.a2]` for i < n. -/
def friLayerLeaves (fL sL : List F) (qL : List (Fp3 F)) (n : Nat) :
    List (List F) :=
  (List.range n).map fun i =>
    [fL.getD i 0, sL.getD i 0,
      (qL.getD i Fp3.zero).a0, (qL.getD i Fp3.zero).a1, (qL.getD i Fp3.zero).a2]

/-- The Merkle configuration both prover and verifier build for a
layer: `arity = pick_arity_for_layer(n, m).max(2)`,
`depth = merkle_depth(n, arity)`, `cfg = vec![arity; depth]` with the
layer index as tree label. -/
def friLayerCfg (n m ell : Nat) : MerkleChannelCfg :=
  ⟨List.replicate (merkleDepth n (max (pickArityForLayer n m) 2))
    (max (pickArityForLayer n m) 2), ell⟩

/-- Embeds the layer loop of `fri_build_transcript`: for each schedule
factor, record the domain generator, the Fp3 DEEP quotient of the
current codeword, then fold with `z.a0`.  Returns (f layers including
the final one, q layers, omega layers). -/
def buildFLayers (O : FriOracle F) (z : Fp3 F) :
    List Nat → List F → Nat → (List (List F) × List (List (Fp3 F)) × List F)
  | [], curF, _ => ([curF], [], [])
  | m :: rest, curF, curSize =>
    let omega := O.groupGen curSize
    let q := computeQLayerFp3 curF z omega
    let next := friFoldLayer O curF z.a0 m
    let out := buildFLayers O z rest next (curSize / m)
    (curF :: out.1, q :: out.2.1, omega :: out.2.2)

/-- One Merkle layer commitment of `fri_build_transcript`:
`n = f_layers[ell].len()`, `arity = pick_arity_for_layer(n, m).max(2)`,
`depth = merkle_depth(n, arity)`, leaves
`(f, s, q.a0, q.a1, q.a2)`, root from the finalized tree. -/
def friCommitLayer (O : FriOracle F) (traceHash : List Nat) (mEll ell : Nat)
    (fL sL : List F) (qL : List (Fp3 F)) : FriLayerCommitment F :=
  FriLayerCommitment.mk fL.length mEll
    (treeRoot O.hashF (friLayerCfg fL.length mEll ell) traceHash
      (friLayerLeaves fL sL qL fL.length))

/-- Embeds `fri_build_transcript`: Fiat-Shamir statement binding and
the single DEEP challenge are modelled by the oracle (deterministic
functions of (schedule, n0, seed_z)); then the layer construction, the
s-layers (one per schedule entry plus a zero vector for the final
layer), and the per-layer Merkle commitments with the transcript-seed
derived trace hash (which the Merkle code ignores). -/
def friBuildTranscript (O : FriOracle F) (f0 : List F) (domain0 : FriDomain F)
    (params : FriProverParams) : FriProverState F :=
  let schedule := params.schedule
  let l := schedule.length
  let z : Fp3 F := fsZ O schedule domain0.size params.seedZ
  let built := buildFLayers O z schedule f0 domain0.size
  let fLayers := built.1
  let qLayers := built.2.1
  let omegaLayers := built.2.2
  let sLayers := ((List.range l).map fun ell =>
      computeSLayer (fLayers.getD ell []) z.a0 (schedule.getD ell 0))
    ++ [List.replicate (fLayers.getD l []).length 0]
  let rootsSeedT := O.friSeedChal schedule domain0.size params.seedZ
  let traceHash := O.serializeF rootsSeedT
  let layers := (List.range l).map fun ell =>
    friCommitLayer O traceHash (schedule.getD ell 0) ell (fLayers.getD ell [])
      (sLayers.getD ell []) (qLayers.getD ell [])
  { fLayers := fLayers, sLayers := sLayers, qLayers := qLayers,
    transcript := ⟨schedule, layers⟩, omegaLayers := omegaLayers,
    zLayers := List.replicate l z.a0 }

/-- Embeds the per-query index walk of `fri_prove_queries`
(`for ell in 0..L`): record `(i, i % m, i % n_next, 0)` and chain
`i = i % n_next`; returns the refs and the final index. -/
def queryWalk : List Nat → List (FriLayerCommitment F) → Nat →
    (List LayerQueryRef × Nat)
  | [], _, i => ([], i)
  | m :: srest, layers, i =>
    let n := (layers.headD dfltCommit).n
    let nNext := n / m
    let out := queryWalk srest layers.tail (i % nNext)
    (⟨i, i % m, i % nNext, 0⟩ :: out.1, out.2)

/-- The initial query index of `fri_prove_queries` (query q): one
StdRng u64 from `index_seed(roots_seed, 0, q)`, masked by
`n_0.next_power_of_two() - 1` and reduced mod the layer-0 size. -/
def friInitialIndex (O : FriOracle F) (layers : List (FriLayerCommitment F))
    (rootsSeed : F) (q : Nat) : Nat :=
  let layer0 := layers.getD 0 dfltCommit
  (O.rngIndex (O.indexSeed rootsSeed 0 q) &&& (nextPow2 layer0.n - 1)) % layer0.n

/-- The FriQueryOpenings record of `fri_prove_queries` for query q:
the layer walk plus the final-constancy pair
`(f_L[final_i], f_L[0])`. -/
def friQueryOpeningsAt (O : FriOracle F) (st : FriProverState F)
    (rootsSeed : F) (q : Nat) : FriQueryOpenings F :=
  let L := st.transcript.schedule.length
  let walk := queryWalk st.transcript.schedule st.transcript.layers
    (friInitialIndex O st.transcript.layers rootsSeed q)
  FriQueryOpenings.mk walk.1 walk.2
    ((st.fLayers.getD L []).getD walk.2 0, (st.fLayers.getD L []).getD 0 0)

/-- The rebuilt Merkle tree levels of layer ell in
`fri_prove_queries` (same cfg rule and leaves as the commitment phase;
the trace hash is ignored by the Merkle code). -/
def friLayerTreeLevels (O : FriOracle F) (st : FriProverState F)
    (traceHash : List Nat) (ell : Nat) : List (List F) :=
  let layer := st.transcript.layers.getD ell dfltCommit
  treeLevels O.hashF (friLayerCfg layer.n layer.m ell) traceHash
    (friLayerLeaves (st.fLayers.getD ell []) (st.sLayers.getD ell [])
      (st.qLayers.getD ell []) layer.n)

/-- Embeds `fri_prove_queries`: sample the initial index for each of
the r queries from the Fiat-Shamir seed, walk the layers, record the
final-constancy pair, and rebuild each layer's Merkle tree to extract
one opening (at that query's layer index) per query per layer. -/
def friProveQueries (O : FriOracle F) (st : FriProverState F) (r : Nat)
    (rootsSeed : F) :
    (List (FriQueryOpenings F) × List F × FriLayerProofs F) :=
  let L := st.transcript.schedule.length
  let allRefs := (List.range r).map (friQueryOpeningsAt O st rootsSeed)
  let traceHash := O.serializeF rootsSeed
  let layerProofs := (List.range L).map fun ell =>
    LayerProof.mk ((List.range r).map fun q =>
      openAt (friLayerTreeLevels O st traceHash ell)
        (friLayerCfg (st.transcript.layers.getD ell dfltCommit).n
          (st.transcript.layers.getD ell dfltCommit).m ell).layerArities
        (((allRefs.getD q dfltQO).perLayerRefs.getD ell dfltRef).i))
  let roots := st.transcript.layers.map fun lc => lc.root
  (allRefs, roots, FriLayerProofs.mk layerProofs)

/-- The per-layer payload of `deep_fri_prove` for one query record:
`(f_i, f_0, s_i, q.a0, q.a1, q.a2, x_i = omega_ell^i, f_parent_b,
s_parent_b)` at the walk's layer index and strided parent index. -/
def friPayloadAt (st : FriProverState F) (qo : FriQueryOpenings F)
    (ell : Nat) : LayerOpenPayload F :=
  let rref := qo.perLayerRefs.getD ell dfltRef
  let qf := (st.qLayers.getD ell []).getD rref.i Fp3.zero
  LayerOpenPayload.mk
    ((st.fLayers.getD ell []).getD rref.i 0)
    ((st.fLayers.getD ell []).getD 0 0)
    ((st.sLayers.getD ell []).getD rref.i 0)
    qf.a0 qf.a1 qf.a2
    ((st.omegaLayers.getD ell 0) ^ rref.i)
    ((st.fLayers.getD (ell + 1) []).getD rref.parentIndex 0)
    ((st.sLayers.getD (ell + 1) []).getD rref.parentIndex 0)

/-- The materialized FriQueryPayload of `deep_fri_prove` for one
query record. -/
def friQueryPayloadAt (st : FriProverState F) (qo : FriQueryOpenings F) :
    FriQueryPayload F :=
  FriQueryPayload.mk qo.perLayerRefs
    ((List.range qo.perLayerRefs.length).map (friPayloadAt st qo))
    qo.finalIndex qo.finalPair

/-- Embeds `deep_fri_prove`: build the prover state via
`fri_build_transcript`, derive the query seed from the roots, generate
query refs and Merkle openings, and materialize the per-layer
payloads. -/
def deepFriProve (O : FriOracle F) (f0 : List F) (domain0 : FriDomain F)
    (params : DeepFriParams) : DeepFriProof F :=
  let proverParams : FriProverParams := ⟨params.schedule, params.seedZ⟩
  let st := friBuildTranscript O f0 domain0 proverParams
  let rootsSeed := O.fsSeedFromRoots (st.transcript.layers.map fun lc => lc.root)
  let out := friProveQueries O st params.r rootsSeed
  DeepFriProof.mk out.2.1 out.2.2 (out.1.map (friQueryPayloadAt st))
    domain0.size domain0.omega

/-- The verifier's DEEP quotient check (fri.rs, deep_fri_verify):
`q_fp3 * (from_base x_i - z) == from_base (f_i - f_0)` in Fp3. -/
def deepCheck (z : Fp3 F) (pay : LayerOpenPayload F) : Bool :=
  decide ((Fp3.mk pay.qA0 pay.qA1 pay.qA2) * (Fp3.fromBase pay.xI - z)
    = Fp3.fromBase (pay.fI - pay.f0))

/-- The verifier's fold-consistency check: `s_i == f_parent_b` (the
bucket index b is computed by the Rust code but not otherwise used). -/
def foldCheck (pay : LayerOpenPayload F) : Bool :=
  decide (pay.sI = pay.fParentB)

/-- The verifier's final-constancy check:
`final_pair.0 == final_pair.1`. -/
def finalCheck (qp : FriQueryPayload F) : Bool :=
  decide (qp.finalPair.1 = qp.finalPair.2)

/-- One (query, layer) iteration of the verification loop of
`deep_fri_verify`: Merkle opening check against the layer root, index
binding (`opening.index == rref.i`), DEEP check, fold consistency. -/
def verifyQueryLayer (O : FriOracle F) (params : DeepFriParams)
    (proof : DeepFriProof F) (z : Fp3 F) (traceHash : List Nat)
    (sizes : List Nat) (q ell : Nat) : Bool :=
  let opening := (proof.layerProofs.layers.getD ell ⟨[]⟩).openings.getD q dfltOpening
  let n := sizes.getD ell 0
  let m := params.schedule.getD ell 0
  let cfg := friLayerCfg n m ell
  let qp := proof.queries.getD q dfltQuery
  let rref := qp.perLayerRefs.getD ell dfltRef
  let pay := qp.perLayerPayloads.getD ell dfltPayload
  verifyOpening O.hashF cfg (proof.roots.getD ell 0) opening traceHash
    && decide (opening.index = rref.i)
    && deepCheck z pay
    && foldCheck pay

/-- Embeds `deep_fri_verify`: rebuild the Fiat-Shamir challenges from
(schedule, proof.n0, seed_z), then run all r x L per-layer checks and
the per-query final-constancy check.  The Rust code returns false at
the first failing check and true at the end; since the checks are
side-effect-free this equals the conjunction computed here. -/
def deepFriVerify (O : FriOracle F) (params : DeepFriParams)
    (proof : DeepFriProof F) : Bool :=
  let L := params.schedule.length
  let sizes := layerSizesFromSchedule proof.n0 params.schedule
  let z : Fp3 F := fsZ O params.schedule proof.n0 params.seedZ
  let rootsSeedT := O.friSeedChal params.schedule proof.n0 params.seedZ
  let traceHash := O.serializeF rootsSeedT
  (List.range params.r).all fun q =>
    ((List.range L).all fun ell =>
      verifyQueryLayer O params proof z traceHash sizes q ell)
    && finalCheck (proof.queries.getD q dfltQuery)

/-! ## Challenge sampling (fri_sample_z_ell, fri.rs) -/

/-- Embeds the retry loop of `fri_sample_z_ell`.  Each draw comes from
the StdRng stream (modelled by `draw`); a candidate passes when it is
nonzero and not an n-th root of unity.  `remaining` counts the retries
left before the fallback branch fires: the Rust loop draws a
candidate, increments `tries`, and enters the fallback once
`tries >= 1000`, i.e. after 1000 draws, so the entry point below uses
`remaining = 999`.  The fallback returns `F::from(seed_z + level + 7)`
(u64 wrapping) if that is not an n-th root of unity, and otherwise
silently returns `F::from(11)`. -/
def friSampleGo (draw : Nat → F) (nDom : Nat) (fallback : F) :
    Nat → Nat → F
  | k, 0 =>
    if draw k ≠ 0 ∧ (draw k) ^ nDom ≠ 1 then draw k
    else if fallback ^ nDom ≠ 1 then fallback else (11 : F)
  | k, r + 1 =>
    if draw k ≠ 0 ∧ (draw k) ^ nDom ≠ 1 then draw k
    else friSampleGo draw nDom fallback (k + 1) r

/-- Embeds `fri_sample_z_ell(seed_z, level, domain_size)`: the RNG is
seeded from the tagged transcript hash of
`[seed_z, level, domain_size]` (oracle `zlHash`/`rngStream`), and the
bounded retry loop of `friSampleGo` runs with `MAX_TRIES = 1000`. -/
def friSampleZEll (O : FriOracle F) (seedZ level domainSize : Nat) : F :=
  let fused := O.zlHash seedZ level domainSize
  let fallback : F := (((seedZ + level + 7) % 18446744073709551616 : Nat) : F)
  friSampleGo (O.rngStream fused) domainSize fallback 0 999

/-! ## DEEP-ALI merge (crates/deep_ali/src/lib.rs) -/

/-- Embeds `is_in_domain`: `z^n == 1`. -/
def isInDomain (z : F) (n : Nat) : Bool := decide (z ^ n = 1)

/-- Embeds `zh_at`: the vanishing polynomial `z^n - 1`. -/
def zhAt (z : F) (n : Nat) : F := z ^ n - 1

/-- Models arkworks `Radix2EvaluationDomain::fft` (used via
`GeneralEvaluationDomain` in the merge) by its defining formula:
evaluation of the coefficient vector at the n powers of the domain
generator, `out[i] = sum over j < n of coeffs[j] * omega^(i*j)`
(coefficient vectors shorter than n are zero-padded, which `getD`
provides). -/
def dftEval (omega : F) (n : Nat) (coeffs : List F) : List F :=
  (List.range n).map fun i =>
    ∑ j ∈ Finset.range n, coeffs.getD j 0 * omega ^ (i * j)

/-- Models arkworks `ifft` by its defining formula:
`out[j] = (1/n) * sum over i < n of evals[i] * omega^(-(i*j))`. -/
def dftInterp (omega : F) (n : Nat) (evals : List F) : List F :=
  (List.range n).map fun j =>
    (n : F)⁻¹ * ∑ i ∈ Finset.range n, evals.getD i 0 * omega⁻¹ ^ (i * j)

/-- Embeds `deep_ali_merge_evals_blinded` (deep_ali/src/lib.rs):
the constraint vector `Phi[j] = a[j]*s[j] + e[j] - t[j]` (with
optional blinding `+ beta*r[j]`), the Fp3 barycentric accumulation
`bary_sum = sum of Phi[j] * omega^j * (z - omega^j).inv`, the scalar
`c_star = (1/n) * bary_sum.a0`, the DEEP quotient codeword
`f0[j] = (Phi[j] / (omega^j - z)).a0`, and the rate enforcement
(ifft, truncate to n/32 coefficients, fft) over the arkworks radix-2
domain of size n (generator from the oracle).
`DensePolynomial::from_coefficients_vec` only strips trailing zero
coefficients, which does not change the evaluations, so the embedding
evaluates the truncated vector directly.  The Rust asserts (n a power
of two, n > 1, equal lengths, n/32 > 0) are preconditions carried by
the theorems. -/
def deepAliMergeEvalsBlinded (O : FriOracle F)
    (aEval sEval eEval tEval : List F) (rEvalOpt : Option (List F)) (beta : F)
    (omega : F) (zFp3 : Fp3 F) : (List F × Fp3 F × F) :=
  let n := aEval.length
  let omegaPows := buildOmegaPows omega n
  let phiEval := (List.range n).map fun i =>
    match rEvalOpt with
    | some r => aEval.getD i 0 * sEval.getD i 0 + eEval.getD i 0 - tEval.getD i 0
        + beta * r.getD i 0
    | none => aEval.getD i 0 * sEval.getD i 0 + eEval.getD i 0 - tEval.getD i 0
  let nInv := (n : F)⁻¹
  let omegaFp3 := omegaPows.map Fp3.fromBase
  let phiFp3 := phiEval.map Fp3.fromBase
  let barySum := (List.range n).foldl
    (fun acc j => acc + phiFp3.getD j Fp3.zero * omegaFp3.getD j Fp3.zero
      * (zFp3 - omegaFp3.getD j Fp3.zero).inv) Fp3.zero
  let cStar := nInv * barySum.a0
  let f0Eval := (List.range n).map fun j =>
    (phiFp3.getD j Fp3.zero * (omegaFp3.getD j Fp3.zero - zFp3).inv).a0
  let domGen := O.groupGen n
  let coeffs := dftInterp domGen n f0Eval
  let d0 := n / 32
  let coeffsT := if d0 < coeffs.length then coeffs.take d0 else coeffs
  (dftEval domGen n coeffsT, zFp3, cStar)

/-- Embeds `deep_ali_merge_evals`: the unblinded entry point
(`r_eval_opt = None`, `beta = 0`). -/
def deepAliMergeEvals (O : FriOracle F) (aEval sEval eEval tEval : List F)
    (omega : F) (zFp3 : Fp3 F) : (List F × Fp3 F × F) :=
  deepAliMergeEvalsBlinded O aEval sEval eEval tEval none 0 omega zFp3

end Fri

/-! ## Generic list and fold lemmas used by the claim proofs -/

theorem getD_append_left {α : Type} {l1 l2 : List α} {i : Nat} (d : α)
    (h : i < l1.length) : (l1 ++ l2).getD i d = l1.getD i d := by
  rw [List.getD_eq_getElem _ d (by simp; omega), List.getD_eq_getElem _ d h]
  exact List.getElem_append_left h

theorem getD_replicate {α : Type} {k i : Nat} (x d : α) (h : i < k) :
    (List.replicate k x).getD i d = x := by
  rw [List.getD_eq_getElem _ d (by simpa using h)]
  simp

theorem getD_map_lt {α β : Type} (f : α → β) (l : List α) {j : Nat}
    (d : β) (a : α) (h : j < l.length) :
    (l.map f).getD j d = f (l.getD j a) := by
  rw [List.getD_eq_getElem _ d (by simpa using h), List.getD_eq_getElem _ a h]
  simp

theorem all_range_succ (f : Nat → Bool) (n : Nat) :
    (List.range (n + 1)).all f = ((List.range n).all f && f n) := by
  rw [List.range_succ]
  simp

theorem all_range_congr {f g : Nat → Bool} {n : Nat}
    (h : ∀ i < n, f i = g i) : (List.range n).all f = (List.range n).all g := by
  induction n with
  | zero => rfl
  | succ k ih =>
    rw [all_range_succ, all_range_succ, ih (fun i hi => h i (by omega)),
      h k (by omega)]

theorem all_range_of_forall {f : Nat → Bool} {n : Nat}
    (h : ∀ i < n, f i = true) : (List.range n).all f = true := by
  rw [List.all_eq_true]
  intro x hx
  exact h x (List.mem_range.mp hx)

theorem foldl_add_eq_sum {M : Type} [AddCommMonoid M] (g : Nat → M) :
    ∀ (n : Nat) (x : M),
    (List.range n).foldl (fun acc j => acc + g j) x
      = x + ∑ j ∈ Finset.range n, g j := by
  intro n
  induction n with
  | zero => simp
  | succ k ih =>
    intro x
    rw [List.range_succ, List.foldl_append, ih x, Finset.sum_range_succ]
    simp [add_assoc]

theorem getD_set_self {α : Type} (l : List α) (i : Nat) (v d : α)
    (h : i < l.length) : (l.set i v).getD i d = v := by
  rw [List.getD_eq_getElem _ d (by simpa using h)]
  simp

theorem getD_set_ne {α : Type} (l : List α) {i j : Nat} (v d : α)
    (h : i ≠ j) : (l.set i v).getD j d = l.getD j d := by
  by_cases hj : j < l.length
  · rw [List.getD_eq_getElem _ d (by simpa using hj),
      List.getD_eq_getElem _ d hj]
    exact List.getElem_set_ne h _
  · rw [List.getD_eq_default _ d (by simp; omega),
      List.getD_eq_default _ d (by omega)]

/-! ## Write-loop lemmas for compute_s_layer -/

section SLayer

variable {F : Type} [Field F] [DecidableEq F]

/-- Length preservation for the inner write loop of
`compute_s_layer`. -/
theorem setLoop_length (v : F) (nNext b : Nat) :
    ∀ (mm : Nat) (acc : List F),
    ((List.range mm).foldl (fun acc2 j => acc2.set (b + j * nNext) v) acc).length
      = acc.length := by
  intro mm
  induction mm with
  | zero => intro acc; rfl
  | succ k ih =>
    intro acc
    rw [List.range_succ, List.foldl_append]
    simp only [List.foldl_cons, List.foldl_nil]
    rw [List.length_set, ih]

/-- The inner write loop of `compute_s_layer` for one bucket b: after
writing `v` at positions `b + j * nNext` for all j < mm, position p
holds `v` exactly when `p % nNext = b` and `p / nNext < mm` (given
`b < nNext`), and is untouched otherwise. -/
theorem setLoop_getD (v : F) (nNext b : Nat) (hb : b < nNext) :
    ∀ (mm : Nat) (acc : List F) (p : Nat),
    ((List.range mm).foldl (fun acc2 j => acc2.set (b + j * nNext) v) acc).getD p 0
      = if p % nNext = b ∧ p / nNext < mm ∧ p < acc.length then v
        else acc.getD p 0 := by
  intro mm
  induction mm with
  | zero =>
    intro acc p
    simp
  | succ k ih =>
    intro acc p
    rw [List.range_succ, List.foldl_append]
    simp only [List.foldl_cons, List.foldl_nil]
    have hlen : ((List.range k).foldl
        (fun acc2 j => acc2.set (b + j * nNext) v) acc).length = acc.length :=
      setLoop_length v nNext b k acc
    by_cases hp : p = b + k * nNext
    · subst hp
      have hmod : (b + k * nNext) % nNext = b := by
        rw [Nat.add_mul_mod_self_right, Nat.mod_eq_of_lt hb]
      have hdiv : (b + k * nNext) / nNext = k := by
        rw [Nat.add_mul_div_right _ _ (by omega), Nat.div_eq_of_lt hb]
        omega
      by_cases hplen : b + k * nNext < acc.length
      · rw [getD_set_self _ _ _ _ (by rw [hlen]; exact hplen)]
        rw [if_pos ⟨hmod, by omega, hplen⟩]
      · rw [List.set_eq_of_length_le (by omega :
          ((List.range k).foldl (fun acc2 j => acc2.set (b + j * nNext) v) acc).length
            ≤ b + k * nNext)]
        rw [ih acc _]
        rw [if_neg (by intro hcon; omega), if_neg (by intro hcon; omega)]
    · rw [getD_set_ne _ _ _ (fun hc => hp hc.symm)]
      rw [ih acc p]
      have hiff : (p % nNext = b ∧ p / nNext < k ∧ p < acc.length)
          ↔ (p % nNext = b ∧ p / nNext < k + 1 ∧ p < acc.length) := by
        constructor
        · rintro ⟨h1, h2, h3⟩
          exact ⟨h1, by omega, h3⟩
        · rintro ⟨h1, h2, h3⟩
          refine ⟨h1, ?_, h3⟩
          rcases Nat.lt_or_ge (p / nNext) k with hlt | hge
          · exact hlt
          · exfalso
            apply hp
            have hdk : p / nNext = k := by omega
            have hdm := Nat.div_add_mod p nNext
            have hc : nNext * k = k * nNext := Nat.mul_comm _ _
            rw [hdk, h1] at hdm
            omega
      by_cases hcase : p % nNext = b ∧ p / nNext < k ∧ p < acc.length
      · rw [if_pos hcase, if_pos (hiff.mp hcase)]
      · rw [if_neg hcase, if_neg (fun hcon => hcase (hiff.mpr hcon))]

/-- Length preservation for the outer write loop of
`compute_s_layer`. -/
theorem outerLoop_length (folded : List F) (nNext m n : Nat) :
    ∀ (bb : Nat),
    ((List.range bb).foldl
        (fun acc b => (List.range m).foldl
          (fun acc2 j => acc2.set (b + j * nNext) (folded.getD b 0)) acc)
        (List.replicate n 0)).length = n := by
  intro bb
  induction bb with
  | zero => simp
  | succ k ih =>
    rw [List.range_succ, List.foldl_append]
    simp only [List.foldl_cons, List.foldl_nil]
    rw [setLoop_length, ih]

/-- The outer write loop of `compute_s_layer`: after processing
buckets 0..bb, position p holds `folded[p % nNext]` exactly when
`p % nNext < bb` and `p < n`. -/
theorem outerLoop_getD (folded : List F) (nNext m n : Nat)
    (hn : n = nNext * m) :
    ∀ (bb : Nat), bb ≤ nNext → ∀ (p : Nat),
    ((List.range bb).foldl
        (fun acc b => (List.range m).foldl
          (fun acc2 j => acc2.set (b + j * nNext) (folded.getD b 0)) acc)
        (List.replicate n 0)).getD p 0
      = if p % nNext < bb ∧ p < n then folded.getD (p % nNext) 0 else 0 := by
  intro bb
  induction bb with
  | zero =>
    intro _ p
    simp only [List.range_zero, List.foldl_nil]
    by_cases hp : p < n
    · rw [getD_replicate _ _ hp, if_neg (by omega)]
    · rw [List.getD_eq_default _ _ (by simp; omega), if_neg (by omega)]
  | succ k ih =>
    intro hbb p
    rw [List.range_succ, List.foldl_append]
    simp only [List.foldl_cons, List.foldl_nil]
    have hk : k < nNext := by omega
    rw [setLoop_getD (folded.getD k 0) nNext k hk m _ p,
      outerLoop_length folded nNext m n k, ih (by omega) p]
    have hdivlt : p < n → p / nNext < m := by
      intro hpn
      rw [Nat.div_lt_iff_lt_mul (by omega)]
      have hcomm : nNext * m = m * nNext := Nat.mul_comm _ _
      omega
    by_cases h1 : p % nNext = k ∧ p / nNext < m ∧ p < n
    · rw [if_pos h1, if_pos (by omega)]
      rw [h1.1]
    · rw [if_neg h1]
      by_cases h2 : p % nNext < k ∧ p < n
      · rw [if_pos h2, if_pos (by omega)]
      · rw [if_neg h2]
        rw [if_neg (by
          intro hcon
          have hd := hdivlt hcon.2
          have hor : p % nNext = k ∨ p % nNext < k := by omega
          rcases hor with he | hl
          · exact h1 ⟨he, hd, hcon.2⟩
          · exact h2 ⟨hl, hcon.2⟩)]

/-- Shared fold-consistency lemma (used by the C8 theorem and the
end-to-end completeness proof): each entry of `compute_s_layer` equals
the folded vector at the strided parent index `i % (n/m)`. -/
theorem computeSLayer_getD (f : List F) (z : F) (m : Nat)
    (hm : 0 < m) (hdvd : m ∣ f.length) {i : Nat} (hi : i < f.length) :
    (computeSLayer f z m).getD i 0
      = (computeSLayerFolded f z m).getD (i % (f.length / m)) 0 := by
  have hn : f.length = (f.length / m) * m := (Nat.div_mul_cancel hdvd).symm
  have hnpos : 0 < f.length := by omega
  have hnextpos : 0 < f.length / m := Nat.div_pos (Nat.le_of_dvd hnpos hdvd) hm
  rw [computeSLayer]
  rw [outerLoop_getD (computeSLayerFolded f z m) (f.length / m) m f.length hn
    (f.length / m) (le_refl _) i]
  rw [if_pos ⟨Nat.mod_lt _ hnextpos, hi⟩]

end SLayer

/-! ## Concrete witness material -/

instance fact_prime_5 : Fact (Nat.Prime 5) := ⟨by norm_num⟩

instance fact_prime_7 : Fact (Nat.Prime 7) := ⟨by norm_num⟩

instance fact_prime_97 : Fact (Nat.Prime 97) := ⟨by norm_num⟩

/-- A concrete all-constant oracle instantiation, used by the
witnesses.  Every theorem below holds for every oracle, so any
computable instantiation will do. -/
def constOracle (F : Type) [Field F] : FriOracle F where
  hashF := fun _ _ => 0
  groupGen := fun _ => 1
  zA0 := fun _ _ _ => 0
  zA1 := fun _ _ _ => 0
  zA2 := fun _ _ _ => 0
  friSeedChal := fun _ _ _ => 0
  fsSeedFromRoots := fun _ => 0
  indexSeed := fun _ _ _ => 0
  rngIndex := fun _ => 0
  serializeF := fun _ => []
  zlHash := fun _ _ _ => 0
  rngStream := fun _ _ => 0

/-! ## Layerwise lemmas for the folding functions -/

section FoldLemmas

variable {F : Type} [Field F] [DecidableEq F]

theorem friFoldLayerImpl_length (evals : List F) (z omega : F) (m : Nat) :
    (friFoldLayerImpl evals z omega m).length = evals.length / m := by
  simp [friFoldLayerImpl]

theorem friFoldLayer_length (O : FriOracle F) (evals : List F) (z : F) (m : Nat) :
    (friFoldLayer O evals z m).length = evals.length / m :=
  friFoldLayerImpl_length evals z _ m

theorem friFoldLayerImpl_getD (evals : List F) (z omega : F) (m : Nat)
    {b : Nat} (hb : b < evals.length / m) :
    (friFoldLayerImpl evals z omega m).getD b 0
      = ∑ j ∈ Finset.range m,
          evals.getD (b + j * (evals.length / m)) 0 * z ^ j := by
  rw [friFoldLayerImpl, getD_range_map _ _ hb,
    foldl_add_eq_sum
      (fun j => evals.getD (b + j * (evals.length / m)) 0
        * (buildZPows z m).getD j 0) m 0, zero_add]
  refine Finset.sum_congr rfl ?_
  intro j hj
  rw [buildZPows_getD z m (Finset.mem_range.mp hj)]

theorem friFoldLayer_getD (O : FriOracle F) (evals : List F) (z : F) (m : Nat)
    {b : Nat} (hb : b < evals.length / m) :
    (friFoldLayer O evals z m).getD b 0
      = ∑ j ∈ Finset.range m,
          evals.getD (b + j * (evals.length / m)) 0 * z ^ j :=
  friFoldLayerImpl_getD evals z _ m hb

/-- The DEEP quotient identity for `compute_q_layer_fp3` (shared
helper; the claim C7 theorem and the completeness proof both use
it). -/
theorem computeQ_mul_denom (f : List F) (z : Fp3 F) (omega : F)
    {i : Nat} (hi : i < f.length)
    (h0 : omega ^ i - z.a0 ≠ 0) (h1 : omega ^ i - z.a1 ≠ 0)
    (h2 : omega ^ i - z.a2 ≠ 0) :
    (computeQLayerFp3 f z omega).getD i Fp3.zero
        * (Fp3.fromBase (omega ^ i) - z)
      = Fp3.fromBase (f.getD i 0) - Fp3.fromBase (f.getD 0 0) := by
  rw [computeQLayerFp3, getD_range_map _ _ hi]
  exact Fp3.mul_inv_cancel_right h0 h1 h2 _

end FoldLemmas

/-! ## Claim theorems: C6, C7, C8 -/

section ClaimsFold

variable {F : Type} [Field F] [DecidableEq F]

/-- Claim C6: for every evaluation vector f of power-of-two length n,
every challenge z, and every folding factor m dividing n,
`fri_fold_layer(f, z, m)` returns a vector of length n/m whose entry
at each bucket b in [0, n/m) equals the strided sum
`sum over j < m of f[b + j*(n/m)] * z^j` (strided fold groups, not
contiguous). -/
theorem claim_C6_fri_fold_layer_strided (O : FriOracle F) (f : List F)
    (z : F) (m : Nat) (hpow : ∃ k, f.length = 2 ^ k) (hm : 0 < m)
    (hdvd : m ∣ f.length) :
    (friFoldLayer O f z m).length = f.length / m ∧
    ∀ b < f.length / m,
      (friFoldLayer O f z m).getD b 0
        = ∑ j ∈ Finset.range m,
            f.getD (b + j * (f.length / m)) 0 * z ^ j := by
  refine ⟨friFoldLayer_length O f z m, ?_⟩
  intro b hb
  exact friFoldLayer_getD O f z m hb

/-- Witness for C6 at a concrete input (F = ZMod 5, f = [1,2,3,4],
z = 2, m = 2). -/
theorem claim_C6_witness :
    ((∃ k, ([1, 2, 3, 4] : List (ZMod 5)).length = 2 ^ k)
      ∧ 0 < 2 ∧ 2 ∣ ([1, 2, 3, 4] : List (ZMod 5)).length)
    ∧ ((friFoldLayer (constOracle (ZMod 5)) [1, 2, 3, 4] 2 2).length
          = ([1, 2, 3, 4] : List (ZMod 5)).length / 2
      ∧ ∀ b < ([1, 2, 3, 4] : List (ZMod 5)).length / 2,
          (friFoldLayer (constOracle (ZMod 5)) [1, 2, 3, 4] 2 2).getD b 0
            = ∑ j ∈ Finset.range 2,
                ([1, 2, 3, 4] : List (ZMod 5)).getD
                  (b + j * (([1, 2, 3, 4] : List (ZMod 5)).length / 2)) 0
                  * (2 : ZMod 5) ^ j) :=
  ⟨⟨⟨2, rfl⟩, by omega, by decide⟩,
    claim_C6_fri_fold_layer_strided (constOracle (ZMod 5)) [1, 2, 3, 4] 2 2
      ⟨2, rfl⟩ (by omega) (by decide)⟩

/-- Claim C7: for every layer vector f, challenge z in F^3 with all
components of (omega^i - z) nonzero, and q = compute_q_layer_fp3,
the identity `q[i] * (x_i - z) = f[i] - f[0]` holds in F^3 at every
index i with x_i = omega^i, and this is exactly the boolean DEEP
check the verifier recomputes (deepCheck) on the corresponding
payload. -/
theorem claim_C7_deep_quotient_equation (f : List F) (z : Fp3 F) (omega : F)
    (hinv : ∀ i < f.length, omega ^ i - z.a0 ≠ 0 ∧ omega ^ i - z.a1 ≠ 0
      ∧ omega ^ i - z.a2 ≠ 0) :
    ∀ i < f.length,
      (computeQLayerFp3 f z omega).getD i Fp3.zero
          * (Fp3.fromBase (omega ^ i) - z)
        = Fp3.fromBase (f.getD i 0 - f.getD 0 0)
      ∧ deepCheck z
          ⟨f.getD i 0, f.getD 0 0, 0,
            ((computeQLayerFp3 f z omega).getD i Fp3.zero).a0,
            ((computeQLayerFp3 f z omega).getD i Fp3.zero).a1,
            ((computeQLayerFp3 f z omega).getD i Fp3.zero).a2,
            omega ^ i, 0, 0⟩ = true := by
  intro i hi
  obtain ⟨h0, h1, h2⟩ := hinv i hi
  have hmain := computeQ_mul_denom f z omega hi h0 h1 h2
  have hsub : Fp3.fromBase (f.getD i 0) - Fp3.fromBase (f.getD 0 0)
      = Fp3.fromBase (f.getD i 0 - f.getD 0 0) := rfl
  refine ⟨hmain.trans hsub, ?_⟩
  rw [deepCheck, decide_eq_true_eq]
  have heta : (Fp3.mk ((computeQLayerFp3 f z omega).getD i Fp3.zero).a0
      ((computeQLayerFp3 f z omega).getD i Fp3.zero).a1
      ((computeQLayerFp3 f z omega).getD i Fp3.zero).a2)
      = (computeQLayerFp3 f z omega).getD i Fp3.zero := rfl
  simp only [heta]
  exact hmain.trans hsub

/-- Witness for C7 at a concrete input (F = ZMod 5, f = [1,3],
omega = 2, z = (4,4,4): omega^0 - 4 = -3 and omega^1 - 4 = -2 are
nonzero). -/
theorem claim_C7_witness :
    (∀ i < ([1, 3] : List (ZMod 5)).length,
      (2 : ZMod 5) ^ i - (4 : ZMod 5) ≠ 0 ∧ (2 : ZMod 5) ^ i - 4 ≠ 0
        ∧ (2 : ZMod 5) ^ i - 4 ≠ 0)
    ∧ ∀ i < ([1, 3] : List (ZMod 5)).length,
      (computeQLayerFp3 [1, 3] ⟨4, 4, 4⟩ 2).getD i Fp3.zero
          * (Fp3.fromBase ((2 : ZMod 5) ^ i) - ⟨4, 4, 4⟩)
        = Fp3.fromBase (([1, 3] : List (ZMod 5)).getD i 0
            - ([1, 3] : List (ZMod 5)).getD 0 0)
      ∧ deepCheck (⟨4, 4, 4⟩ : Fp3 (ZMod 5))
          ⟨([1, 3] : List (ZMod 5)).getD i 0, ([1, 3] : List (ZMod 5)).getD 0 0, 0,
            ((computeQLayerFp3 [1, 3] ⟨4, 4, 4⟩ 2).getD i Fp3.zero).a0,
            ((computeQLayerFp3 [1, 3] ⟨4, 4, 4⟩ 2).getD i Fp3.zero).a1,
            ((computeQLayerFp3 [1, 3] ⟨4, 4, 4⟩ 2).getD i Fp3.zero).a2,
            (2 : ZMod 5) ^ i, 0, 0⟩ = true :=
  ⟨by decide, claim_C7_deep_quotient_equation [1, 3] ⟨4, 4, 4⟩ 2 (by decide)⟩

/-- Claim C8: for every vector f, challenge z and factor m dividing
n = f.length, `compute_s_layer(f, z, m)[i]` equals
`fri_fold_layer(f, z, m)[i mod (n/m)]` at every index i < n: each
folded parent value is repeated across its m strided children. -/
theorem claim_C8_s_layer_fold_consistency (O : FriOracle F) (f : List F)
    (z : F) (m : Nat) (hm : 0 < m) (hdvd : m ∣ f.length) :
    ∀ i < f.length,
      (computeSLayer f z m).getD i 0
        = (friFoldLayer O f z m).getD (i % (f.length / m)) 0 := by
  intro i hi
  rw [computeSLayer_getD f z m hm hdvd hi]
  rfl

/-- Witness for C8 at a concrete input (F = ZMod 5, f = [1,2,3,4],
z = 3, m = 2). -/
theorem claim_C8_witness :
    (0 < 2 ∧ 2 ∣ ([1, 2, 3, 4] : List (ZMod 5)).length)
    ∧ ∀ i < ([1, 2, 3, 4] : List (ZMod 5)).length,
      (computeSLayer [1, 2, 3, 4] (3 : ZMod 5) 2).getD i 0
        = (friFoldLayer (constOracle (ZMod 5)) [1, 2, 3, 4] 3 2).getD
            (i % (([1, 2, 3, 4] : List (ZMod 5)).length / 2)) 0 :=
  ⟨⟨by omega, by decide⟩,
    claim_C8_s_layer_fold_consistency (constOracle (ZMod 5)) [1, 2, 3, 4] 3 2
      (by omega) (by decide)⟩

end ClaimsFold

/-! ## Claim C10: the challenge resampling loop -/

section ClaimSampler

variable {F : Type} [Field F] [DecidableEq F]

/-- When every draw fails the domain test and the fallback is itself
an n-th root of unity, the sampler loop runs to exhaustion and
returns the constant 11. -/
theorem friSampleGo_exhaust (draw : Nat → F) (nDom : Nat) (fb : F)
    (hfb : fb ^ nDom = 1) :
    ∀ (r k : Nat),
    (∀ t ≤ r, draw (k + t) = 0 ∨ (draw (k + t)) ^ nDom = 1) →
    friSampleGo draw nDom fb k r = 11 := by
  intro r
  induction r with
  | zero =>
    intro k h
    have h0 := h 0 (le_refl 0)
    rw [Nat.add_zero] at h0
    rw [friSampleGo, if_neg (by
      rintro ⟨hne, hpne⟩
      rcases h0 with hz | hp
      · exact hne hz
      · exact hpne hp)]
    rw [if_neg (fun hc => hc hfb)]
  | succ rr ih =>
    intro k h
    have h0 := h 0 (by omega)
    rw [Nat.add_zero] at h0
    rw [friSampleGo, if_neg (by
      rintro ⟨hne, hpne⟩
      rcases h0 with hz | hp
      · exact hne hz
      · exact hpne hp)]
    refine ih (k + 1) ?_
    intro t ht
    have := h (t + 1) (by omega)
    rw [show k + 1 + t = k + (t + 1) by omega]
    exact this

/-- Claim C10 (amended): `fri_sample_z_ell` retries sampling at most
1,000 times; when every one of the 1,000 draws is zero or lies in the
layer domain, it tries the single deterministic fallback
`F::from(seed_z + level + 7)` (u64 wrapping add), and when that
fallback also lies in the domain it returns the constant `F::from(11)`
-- it does NOT surface a ConfigError (its return type has no error
channel), so exhausting the loop silently returns a value. -/
theorem claim_C10_sampler_exhaustion (O : FriOracle F)
    (seedZ level n : Nat)
    (hbad : ∀ k < 1000, O.rngStream (O.zlHash seedZ level n) k = 0
      ∨ (O.rngStream (O.zlHash seedZ level n) k) ^ n = 1)
    (hfb : ((((seedZ + level + 7) % 18446744073709551616 : Nat) : F)) ^ n = 1) :
    friSampleZEll O seedZ level n = 11 := by
  rw [friSampleZEll]
  exact friSampleGo_exhaust (O.rngStream (O.zlHash seedZ level n)) n _ hfb 999 0
    (fun t ht => by
      have := hbad t (by omega)
      simpa using this)

set_option maxRecDepth 8000 in
/-- Counterexample for claim C10 as stated: at the concrete input
(F = ZMod 5, seed_z = 0, level = 0, domain_size = 4) with the constant
RNG stream, every candidate is zero and the fallback 7 satisfies
7^4 = 1 in ZMod 5, so the exhausted loop silently returns the plain
field value `F::from(11)` (which is even a 4-th root of unity, i.e.
inside the forbidden domain) -- no ConfigError surfaces to the
caller. -/
theorem claim_C10_counterexample :
    friSampleZEll (constOracle (ZMod 5)) 0 0 4 = 11
      ∧ friSampleZEll (constOracle (ZMod 5)) 0 0 4 ≠ 0
      ∧ isInDomain (friSampleZEll (constOracle (ZMod 5)) 0 0 4) 4 = true := by
  refine ⟨by decide, by decide, by decide⟩

/-- Witness for the amended C10 theorem at the same concrete input. -/
theorem claim_C10_witness :
    ((∀ k < 1000, (constOracle (ZMod 5)).rngStream
        ((constOracle (ZMod 5)).zlHash 0 0 4) k = 0
      ∨ ((constOracle (ZMod 5)).rngStream
          ((constOracle (ZMod 5)).zlHash 0 0 4) k) ^ 4 = 1)
      ∧ ((((0 + 0 + 7) % 18446744073709551616 : Nat) : ZMod 5)) ^ 4 = 1)
    ∧ friSampleZEll (constOracle (ZMod 5)) 0 0 4 = 11 :=
  ⟨⟨fun k _ => Or.inl rfl, by decide⟩,
    claim_C10_sampler_exhaustion (constOracle (ZMod 5)) 0 0 4
      (fun k _ => Or.inl rfl) (by decide)⟩

end ClaimSampler

/-! ## Claim C5: the recorded scalar c-star -/

section ClaimCStar

variable {F : Type} [Field F] [DecidableEq F]

theorem foldl_add_a0 (g : Nat → Fp3 F) :
    ∀ (n : Nat) (x : Fp3 F),
    ((List.range n).foldl (fun acc j => acc + g j) x).a0
      = (List.range n).foldl (fun acc j => acc + (g j).a0) x.a0 := by
  intro n
  induction n with
  | zero => intro x; rfl
  | succ k ih =>
    intro x
    rw [List.range_succ, List.foldl_append, List.foldl_append]
    simp only [List.foldl_cons, List.foldl_nil]
    have step : (List.foldl (fun acc j => acc + g j) x (List.range k) + g k).a0
        = (List.foldl (fun acc j => acc + g j) x (List.range k)).a0 + (g k).a0 :=
      rfl
    rw [step, ih]

/-- Shared helper: closed form of the merge's recorded scalar. -/
theorem mergeEvals_cstar_eq (O : FriOracle F) (a s e t : List F)
    (omega : F) (z : Fp3 F) :
    (deepAliMergeEvals O a s e t omega z).2.2
      = (a.length : F)⁻¹ * ∑ j ∈ Finset.range a.length,
          (a.getD j 0 * s.getD j 0 + e.getD j 0 - t.getD j 0) * omega ^ j
            * (z.a0 - omega ^ j)⁻¹ := by
  have hc : (deepAliMergeEvals O a s e t omega z).2.2
      = (a.length : F)⁻¹ * ((List.range a.length).foldl
          (fun acc j => acc
            + (((List.range a.length).map fun i =>
                  a.getD i 0 * s.getD i 0 + e.getD i 0 - t.getD i 0).map
                Fp3.fromBase).getD j Fp3.zero
              * ((buildOmegaPows omega a.length).map Fp3.fromBase).getD j Fp3.zero
              * (z - ((buildOmegaPows omega a.length).map
                  Fp3.fromBase).getD j Fp3.zero).inv) Fp3.zero).a0 := rfl
  rw [hc, foldl_add_a0, foldl_add_eq_sum]
  have hz0 : (Fp3.zero : Fp3 F).a0 = 0 := rfl
  rw [hz0, zero_add]
  congr 1
  refine Finset.sum_congr rfl ?_
  intro j hj
  have hjlt : j < a.length := Finset.mem_range.mp hj
  have hphi : (((List.range a.length).map fun i =>
      a.getD i 0 * s.getD i 0 + e.getD i 0 - t.getD i 0).map
        Fp3.fromBase).getD j Fp3.zero
      = Fp3.fromBase (a.getD j 0 * s.getD j 0 + e.getD j 0 - t.getD j 0) := by
    rw [getD_map_lt Fp3.fromBase _ Fp3.zero 0 (by simpa using hjlt),
      getD_range_map _ _ hjlt]
  have homega : ((buildOmegaPows omega a.length).map Fp3.fromBase).getD j
      Fp3.zero = Fp3.fromBase (omega ^ j) := by
    rw [getD_map_lt Fp3.fromBase _ Fp3.zero 0
      (by rw [buildOmegaPows, buildZPows, buildZPowsGo_length]; exact hjlt)]
    rw [buildOmegaPows, buildZPows_getD omega a.length hjlt]
  rw [hphi, homega]
  rfl

/-- Claim C5 (amended): the third component returned by
`deep_ali_merge_evals` is `(1/n)` times the a0-projection of the Fp3
barycentric accumulator `sum of Phi_j * omega^j / (z - omega^j)` with
`Phi_j = a_j*s_j + e_j - t_j`; no division by `Z_H(z) = z^n - 1`
takes place (the code computes `c_star = n_inv * bary_sum.a0` and the
`zh_at` helper is never called by the merge). -/
theorem claim_C5_cstar_formula (O : FriOracle F) (a s e t : List F)
    (omega : F) (z : Fp3 F) :
    (deepAliMergeEvals O a s e t omega z).2.2
      = (a.length : F)⁻¹ * ∑ j ∈ Finset.range a.length,
          (a.getD j 0 * s.getD j 0 + e.getD j 0 - t.getD j 0) * omega ^ j
            * (z.a0 - omega ^ j)⁻¹ :=
  mergeEvals_cstar_eq O a s e t omega z

/-- The concrete barycentric value at the C5 counterexample input:
every summand is 2, so the whole sum is 64 = 1 in ZMod 7 and
c* = (32)^-1 * 1 = 2. -/
theorem cstar_concrete_value :
    (deepAliMergeEvals (constOracle (ZMod 7)) (List.replicate 32 1)
        (List.replicate 32 1) (List.replicate 32 1) (List.replicate 32 0)
        1 ⟨2, 2, 2⟩).2.2 = 2 := by
  rw [mergeEvals_cstar_eq]
  have hterm : ∀ j ∈ Finset.range (List.replicate 32 (1 : ZMod 7)).length,
      ((List.replicate 32 (1 : ZMod 7)).getD j 0
          * (List.replicate 32 (1 : ZMod 7)).getD j 0
        + (List.replicate 32 (1 : ZMod 7)).getD j 0
        - (List.replicate 32 (0 : ZMod 7)).getD j 0)
        * (1 : ZMod 7) ^ j
        * ((⟨2, 2, 2⟩ : Fp3 (ZMod 7)).a0 - (1 : ZMod 7) ^ j)⁻¹
      = 2 := by
    intro j hj
    have hjlt : j < 32 := by simpa using Finset.mem_range.mp hj
    rw [getD_replicate (1 : ZMod 7) 0 hjlt, getD_replicate (0 : ZMod 7) 0 hjlt,
      one_pow]
    have ha0 : (⟨2, 2, 2⟩ : Fp3 (ZMod 7)).a0 = 2 := rfl
    rw [ha0]
    have hsub : (2 : ZMod 7) - 1 = 1 := by decide
    rw [hsub, inv_one]
    ring_nf
  rw [Finset.sum_congr rfl hterm]
  rw [Finset.sum_const]
  have hlen : (List.replicate 32 (1 : ZMod 7)).length = 32 := by simp
  rw [hlen]
  have hcard : (Finset.range 32).card = 32 := Finset.card_range 32
  rw [hcard]
  have hinv : ((32 : ZMod 7) : ZMod 7)⁻¹ = 2 := by
    have h1 : (32 : ZMod 7) * 2 = 1 := by decide
    exact inv_eq_of_mul_eq_one_right h1
  have hcast : ((32 : Nat) : ZMod 7) = (32 : ZMod 7) := by norm_cast
  rw [hcast, hinv]
  have hsmul : (32 : Nat) • (2 : ZMod 7) = ((32 : Nat) : ZMod 7) * 2 :=
    nsmul_eq_mul 32 2
  rw [hsmul, hcast]
  decide

/-- Counterexample for claim C5 as stated: at the concrete input
(F = ZMod 7, n = 32, a = s = e = 1-vectors, t = 0-vector, omega = 1,
z = (2,2,2)) the merge records c* = 2, while the claim's formula
`Phi(z)/Z_H(z)` with `Phi(z) = (1/n) * sum of Phi_j*omega^j/(z-omega^j)`
evaluates to c* * (zh_at 2 32)^-1 = 2 * 3^-1 = 3: the code performs no
division by Z_H(z). -/
theorem claim_C5_counterexample :
    (deepAliMergeEvals (constOracle (ZMod 7)) (List.replicate 32 1)
        (List.replicate 32 1) (List.replicate 32 1) (List.replicate 32 0)
        1 ⟨2, 2, 2⟩).2.2
      ≠ (deepAliMergeEvals (constOracle (ZMod 7)) (List.replicate 32 1)
          (List.replicate 32 1) (List.replicate 32 1) (List.replicate 32 0)
          1 ⟨2, 2, 2⟩).2.2
        * (zhAt (2 : ZMod 7) 32)⁻¹ := by
  rw [cstar_concrete_value]
  have hzh : zhAt (2 : ZMod 7) 32 = 3 := by
    rw [zhAt]
    decide
  rw [hzh]
  have hinv3 : (3 : ZMod 7)⁻¹ = 5 := by
    have h1 : (3 : ZMod 7) * 5 = 1 := by decide
    exact inv_eq_of_mul_eq_one_right h1
  rw [hinv3]
  decide

end ClaimCStar

/-! ## Claim C9: schedule normalization -/

section ClaimSchedule

variable {F : Type} [Field F] [DecidableEq F]

theorem buildFLayers_fst_length (O : FriOracle F) (z : Fp3 F) :
    ∀ (sched : List Nat) (curF : List F) (sz : Nat),
    (buildFLayers O z sched curF sz).1.length = sched.length + 1 := by
  intro sched
  induction sched with
  | nil => intro curF sz; rfl
  | cons m rest ih =>
    intro curF sz
    simp only [buildFLayers, List.length_cons]
    rw [ih]

theorem buildFLayers_fst_ne_nil (O : FriOracle F) (z : Fp3 F)
    (sched : List Nat) (curF : List F) (sz : Nat) :
    (buildFLayers O z sched curF sz).1 ≠ [] := by
  intro hnil
  have := buildFLayers_fst_length O z sched curF sz
  rw [hnil] at this
  simp at this

theorem buildFLayers_fst_last (O : FriOracle F) (z : Fp3 F) :
    ∀ (sched : List Nat) (curF : List F) (sz : Nat),
    ((buildFLayers O z sched curF sz).1.getLastD []).length
      = curF.length / sched.prod := by
  intro sched
  induction sched with
  | nil =>
    intro curF sz
    simp [buildFLayers]
  | cons m rest ih =>
    intro curF sz
    simp only [buildFLayers]
    rw [getLastD_cons_of_ne_nil _ _ _ (buildFLayers_fst_ne_nil O z rest _ _)]
    rw [ih]
    rw [friFoldLayer_length, List.prod_cons, Nat.div_div_eq_div_mul]

/-- Claim C9 (amended): `fri_build_transcript` and `deep_fri_prove`
perform no schedule normalization: the layer list has exactly
`schedule.length + 1` entries and the final layer has length
`n0 / (product of the schedule factors)` -- which is 1 exactly when
the product equals n0.  (The residual-appending step the spec
describes lives in the benchmark harness `normalize_fri_schedule`,
outside the prover.) -/
theorem claim_C9_no_normalization (O : FriOracle F) (f0 : List F)
    (domain0 : FriDomain F) (params : FriProverParams) :
    (friBuildTranscript O f0 domain0 params).fLayers.length
        = params.schedule.length + 1
      ∧ ((friBuildTranscript O f0 domain0 params).fLayers.getLastD []).length
        = f0.length / params.schedule.prod := by
  constructor
  · exact buildFLayers_fst_length O _ params.schedule f0 domain0.size
  · exact buildFLayers_fst_last O _ params.schedule f0 domain0.size

/-- Counterexample for claim C9 as stated: with n0 = 4 and schedule
[2] (product 2 < 4, residual 2), the prover does not append the
residual: the final layer built by `fri_build_transcript` has length
2, not 1. -/
theorem claim_C9_counterexample :
    ([2] : List Nat).prod < 4
      ∧ ((friBuildTranscript (constOracle (ZMod 5)) [1, 2, 3, 4]
          (FriDomain.newRadix2 (constOracle (ZMod 5)) 4)
          ⟨[2], 0⟩).fLayers.getLastD []).length = 2 := by
  refine ⟨by decide, by decide⟩

end ClaimSchedule

/-! ## Claim C2: what the Merkle node hashes bind -/

section ClaimMerkleBinding

variable {F : Type} [Field F] [DecidableEq F]

/-- Claim C2 (amended): every leaf hash binds exactly
(layer_arities[0], LEAF sentinel, leaf position, tree_label) and the
leaf values, and the whole level structure -- hence the root -- is
determined by (leaves, arity schedule, tree_label) alone: the
trace_hash argument is ignored by `MerkleTreeChannel::new`,
`compress` and `verify_opening`, so two trees differing only in
trace_hash have identical node hashes (not different preimages). -/
theorem claim_C2_merkle_binding (hashF : DsLabel → List F → F)
    (cfg : MerkleChannelCfg) (th1 th2 : List Nat)
    (leafValues : List (List F)) :
    treeLevels hashF cfg th1 leafValues = treeLevels hashF cfg th2 leafValues
    ∧ treeRoot hashF cfg th1 leafValues = treeRoot hashF cfg th2 leafValues
    ∧ ∀ i < leafValues.length,
        ((treeLevels hashF cfg th1 leafValues).headD []).getD i 0
          = hashF ⟨cfg.layerArities.headD 0, leafLevelDS, i, cfg.treeLabel⟩
              (leafValues.getD i []) := by
  refine ⟨rfl, rfl, ?_⟩
  intro i hi
  rw [treeLevels, buildLevelsAux_headD, levelZero, getD_range_map _ _ hi]
  rfl

/-- Test hash used by the C2 counterexample: an explicit function of
the DS header and the children. -/
def testHashC2 : DsLabel → List (ZMod 5) → ZMod 5 :=
  fun ds cs => ((ds.arity + 2 * ds.level + 3 * ds.position
    + ds.treeLabel : Nat) : ZMod 5) + cs.sum

/-- Counterexample for claim C2 as stated: two trees with identical
leaves, arity schedule and tree label but different trace hashes have
the SAME root (the trace hash enters no hash preimage), contradicting
the claimed trace_hash binding. -/
theorem claim_C2_counterexample :
    ([0] : List Nat) ≠ [1]
      ∧ treeRoot testHashC2 ⟨[2, 2], 3⟩ [0] [[1], [2], [3]]
        = treeRoot testHashC2 ⟨[2, 2], 3⟩ [1] [[1], [2], [3]] := by
  exact ⟨by decide, rfl⟩

/-- Witness for the amended C2 theorem at a concrete input. -/
theorem claim_C2_witness :
    (0 : Nat) < ([[1], [2], [3]] : List (List (ZMod 5))).length
      ∧ ((treeLevels testHashC2 ⟨[2, 2], 3⟩ [0] [[1], [2], [3]]).headD []).getD 0 0
        = testHashC2 ⟨2, leafLevelDS, 0, 3⟩ [1] :=
  ⟨by decide,
    (claim_C2_merkle_binding testHashC2 ⟨[2, 2], 3⟩ [0] [1]
      [[1], [2], [3]]).2.2 0 (by decide)⟩

end ClaimMerkleBinding

/-! ## DFT inversion and claim C4 -/

section ClaimRate

variable {F : Type} [Field F] [DecidableEq F]

theorem geom_sum_root (u : F) (n : Nat) (hun : u ^ n = 1) (hne : u ≠ 1) :
    ∑ i ∈ Finset.range n, u ^ i = 0 := by
  rw [geom_sum_eq hne, hun, sub_self, zero_div]

theorem dft_pair_sum (omega : F) (n : Nat) (h1 : omega ^ n = 1)
    (hprim : ∀ k, 0 < k → k < n → omega ^ k ≠ 1) (hn : 0 < n)
    {k j : Nat} (hk : k < n) (hj : j < n) :
    ∑ i ∈ Finset.range n, omega ^ (i * k) * omega⁻¹ ^ (i * j)
      = if k = j then (n : F) else 0 := by
  have homega_ne : omega ≠ 0 := by
    intro h0
    rw [h0, zero_pow (by omega)] at h1
    exact zero_ne_one h1
  have hterm : ∀ i, omega ^ (i * k) * omega⁻¹ ^ (i * j)
      = (omega ^ k * omega⁻¹ ^ j) ^ i := by
    intro i
    rw [mul_pow, ← pow_mul, ← pow_mul, Nat.mul_comm k i, Nat.mul_comm j i]
  rw [Finset.sum_congr rfl (fun i _ => hterm i)]
  by_cases hkj : k = j
  · subst hkj
    have hu1 : omega ^ k * omega⁻¹ ^ k = 1 := by
      rw [← mul_pow, mul_inv_cancel₀ homega_ne, one_pow]
    rw [if_pos rfl, hu1]
    simp
  · rw [if_neg hkj]
    have hun : (omega ^ k * omega⁻¹ ^ j) ^ n = 1 := by
      rw [mul_pow, ← pow_mul, ← pow_mul, Nat.mul_comm k n, Nat.mul_comm j n,
        pow_mul, pow_mul, h1, one_pow, inv_pow, h1, inv_one, one_pow, mul_one]
    apply geom_sum_root _ n hun
    intro hu1
    have h2 : omega ^ k = omega ^ j := by
      rw [inv_pow] at hu1
      have hzj : omega ^ j ≠ 0 := pow_ne_zero j homega_ne
      field_simp at hu1
      exact hu1
    rcases Nat.lt_or_ge k j with hlt | hge
    · have hsplit : omega ^ (j - k) * omega ^ k = omega ^ j := by
        rw [← pow_add]
        congr 1
        omega
      have hzk : omega ^ k ≠ 0 := pow_ne_zero k homega_ne
      have h3 : omega ^ (j - k) = 1 := by
        apply mul_right_cancel₀ hzk
        rw [hsplit, ← h2, one_mul]
      exact hprim (j - k) (by omega) (by omega) h3
    · have hgt : j < k := by omega
      have hsplit : omega ^ (k - j) * omega ^ j = omega ^ k := by
        rw [← pow_add]
        congr 1
        omega
      have hzj : omega ^ j ≠ 0 := pow_ne_zero j homega_ne
      have h3 : omega ^ (k - j) = 1 := by
        apply mul_right_cancel₀ hzj
        rw [hsplit, h2, one_mul]
      exact hprim (k - j) (by omega) (by omega) h3

theorem dftInterp_length (omega : F) (n : Nat) (evals : List F) :
    (dftInterp omega n evals).length = n := by
  simp [dftInterp]

theorem dftEval_length (omega : F) (n : Nat) (coeffs : List F) :
    (dftEval omega n coeffs).length = n := by
  simp [dftEval]

/-- DFT inversion for the arkworks domain model: interpolating the
evaluation of a (zero-padded) coefficient vector recovers the
coefficients, for a primitive n-th root of unity in a field where n
is invertible. -/
theorem dft_inversion (omega : F) (n : Nat) (c : List F)
    (h1 : omega ^ n = 1) (hprim : ∀ k, 0 < k → k < n → omega ^ k ≠ 1)
    (hn : 0 < n) (hchar : (n : F) ≠ 0) :
    ∀ j < n, (dftInterp omega n (dftEval omega n c)).getD j 0 = c.getD j 0 := by
  intro j hj
  rw [dftInterp, getD_range_map _ _ hj]
  have hev : ∀ i ∈ Finset.range n,
      (dftEval omega n c).getD i 0 * omega⁻¹ ^ (i * j)
        = ∑ k ∈ Finset.range n,
            c.getD k 0 * (omega ^ (i * k) * omega⁻¹ ^ (i * j)) := by
    intro i hi
    rw [dftEval, getD_range_map _ _ (Finset.mem_range.mp hi), Finset.sum_mul]
    refine Finset.sum_congr rfl ?_
    intro k _
    ring
  rw [Finset.sum_congr rfl hev, Finset.sum_comm]
  have hinner : ∀ k ∈ Finset.range n,
      ∑ i ∈ Finset.range n,
          c.getD k 0 * (omega ^ (i * k) * omega⁻¹ ^ (i * j))
        = if k = j then c.getD k 0 * (n : F) else 0 := by
    intro k hk
    rw [← Finset.mul_sum,
      dft_pair_sum omega n h1 hprim hn (Finset.mem_range.mp hk) hj]
    by_cases hkj : k = j
    · rw [if_pos hkj, if_pos hkj]
    · rw [if_neg hkj, if_neg hkj, mul_zero]
  rw [Finset.sum_congr rfl hinner,
    Finset.sum_ite_eq' (Finset.range n) j (fun x => c.getD x 0 * (n : F)),
    if_pos (Finset.mem_range.mpr hj)]
  rw [mul_comm (c.getD j 0) (n : F), ← mul_assoc, inv_mul_cancel₀ hchar, one_mul]

/-- Claim C4: for equal-length power-of-two input vectors of length
n >= 32 (with the merge's denominators invertible, the domain
generator a primitive n-th root of unity, and n invertible in F), the
codeword returned by `deep_ali_merge_evals` -- produced by INTT-ing
the quotient vector, keeping the first n/32 coefficients, and
re-NTT-ing -- has an INTT with zero coefficients at every index
>= n/32, i.e. degree < n/32. -/
theorem claim_C4_rate_enforcement (O : FriOracle F) (a s e t : List F)
    (omega : F) (z : Fp3 F)
    (hn32 : 32 ≤ a.length) (hpow : ∃ k, a.length = 2 ^ k)
    (hs : s.length = a.length) (he : e.length = a.length)
    (ht : t.length = a.length)
    (hg1 : (O.groupGen a.length) ^ a.length = 1)
    (hgprim : ∀ k, 0 < k → k < a.length → (O.groupGen a.length) ^ k ≠ 1)
    (hchar : ((a.length : Nat) : F) ≠ 0)
    (hden : ∀ j < a.length, omega ^ j - z.a0 ≠ 0 ∧ omega ^ j - z.a1 ≠ 0
      ∧ omega ^ j - z.a2 ≠ 0 ∧ z.a0 - omega ^ j ≠ 0 ∧ z.a1 - omega ^ j ≠ 0
      ∧ z.a2 - omega ^ j ≠ 0) :
    ∀ idx, a.length / 32 ≤ idx →
      (dftInterp (O.groupGen a.length) a.length
          (deepAliMergeEvals O a s e t omega z).1).getD idx 0 = 0 := by
  intro idx hidx
  have hfst : (deepAliMergeEvals O a s e t omega z).1
      = dftEval (O.groupGen a.length) a.length
          (if a.length / 32 < (dftInterp (O.groupGen a.length) a.length
              ((List.range a.length).map fun j =>
                ((((List.range a.length).map fun i =>
                    a.getD i 0 * s.getD i 0 + e.getD i 0 - t.getD i 0).map
                      Fp3.fromBase).getD j Fp3.zero
                  * (((buildOmegaPows omega a.length).map Fp3.fromBase).getD j
                      Fp3.zero - z).inv).a0)).length
           then (dftInterp (O.groupGen a.length) a.length
              ((List.range a.length).map fun j =>
                ((((List.range a.length).map fun i =>
                    a.getD i 0 * s.getD i 0 + e.getD i 0 - t.getD i 0).map
                      Fp3.fromBase).getD j Fp3.zero
                  * (((buildOmegaPows omega a.length).map Fp3.fromBase).getD j
                      Fp3.zero - z).inv).a0)).take (a.length / 32)
           else dftInterp (O.groupGen a.length) a.length
              ((List.range a.length).map fun j =>
                ((((List.range a.length).map fun i =>
                    a.getD i 0 * s.getD i 0 + e.getD i 0 - t.getD i 0).map
                      Fp3.fromBase).getD j Fp3.zero
                  * (((buildOmegaPows omega a.length).map Fp3.fromBase).getD j
                      Fp3.zero - z).inv).a0)) := rfl
  rw [hfst, if_pos (by
    rw [dftInterp_length]
    exact Nat.div_lt_self (by omega) (by omega))]
  by_cases hlt : idx < a.length
  · rw [dft_inversion (O.groupGen a.length) a.length _ hg1 hgprim (by omega)
      hchar idx hlt]
    apply List.getD_eq_default
    have htk := List.length_take (a.length / 32)
      (dftInterp (O.groupGen a.length) a.length
        ((List.range a.length).map fun j =>
          ((((List.range a.length).map fun i =>
              a.getD i 0 * s.getD i 0 + e.getD i 0 - t.getD i 0).map
                Fp3.fromBase).getD j Fp3.zero
            * (((buildOmegaPows omega a.length).map Fp3.fromBase).getD j
                Fp3.zero - z).inv).a0))
    omega
  · apply List.getD_eq_default
    rw [dftInterp_length]
    omega

/-- Oracle instantiation for the C4 witness: the radix-2 generator of
the size-32 domain in ZMod 97 is 28 (an element of order 32). -/
def oracle97 : FriOracle (ZMod 97) :=
  { constOracle (ZMod 97) with groupGen := fun _ => 28 }

/-- Witness for C4 at a concrete input (ZMod 97, n = 32, omega = 1,
z = (3,3,3), all four input vectors the constant-1 vector). -/
theorem claim_C4_witness :
    ((28 : ZMod 97) ^ 32 = 1
      ∧ (∀ k < 32, 0 < k → (28 : ZMod 97) ^ k ≠ 1)
      ∧ ((32 : Nat) : ZMod 97) ≠ 0)
    ∧ (dftInterp (oracle97.groupGen (List.replicate 32 (1 : ZMod 97)).length)
        (List.replicate 32 (1 : ZMod 97)).length
        (deepAliMergeEvals oracle97 (List.replicate 32 1)
          (List.replicate 32 1) (List.replicate 32 1) (List.replicate 32 1)
          1 ⟨3, 3, 3⟩).1).getD 1 0 = 0 :=
  ⟨⟨by decide, by decide, by decide⟩,
    claim_C4_rate_enforcement oracle97 (List.replicate 32 1)
      (List.replicate 32 1) (List.replicate 32 1) (List.replicate 32 1)
      1 ⟨3, 3, 3⟩ (by decide) ⟨5, by decide⟩ (by decide) (by decide) (by decide)
      (by decide)
      (fun k hk0 hklt =>
        (by decide : ∀ k < 32, 0 < k → (28 : ZMod 97) ^ k ≠ 1) k hklt hk0)
      (by decide) (by decide) 1 (by decide)⟩

end ClaimRate

/-! ## Claim C3: the verifier verdict ignores payload identities -/

section ClaimPayloadIndependence

variable {F : Type} [Field F] [DecidableEq F]

theorem deepFriVerify_expand (O : FriOracle F) (params : DeepFriParams)
    (proof : DeepFriProof F) :
    deepFriVerify O params proof
      = ((List.range params.r).all fun q =>
          ((List.range params.schedule.length).all fun ell =>
            verifyQueryLayer O params proof
              (fsZ O params.schedule proof.n0 params.seedZ)
              (O.serializeF (O.friSeedChal params.schedule proof.n0 params.seedZ))
              (layerSizesFromSchedule proof.n0 params.schedule) q ell)
          && finalCheck (proof.queries.getD q dfltQuery)) := rfl

theorem verifyQueryLayer_expand (O : FriOracle F) (params : DeepFriParams)
    (proof : DeepFriProof F) (z : Fp3 F) (traceHash : List Nat)
    (sizes : List Nat) (q ell : Nat) :
    verifyQueryLayer O params proof z traceHash sizes q ell
      = (verifyOpening O.hashF
          (friLayerCfg (sizes.getD ell 0) (params.schedule.getD ell 0) ell)
          (proof.roots.getD ell 0)
          ((proof.layerProofs.layers.getD ell ⟨[]⟩).openings.getD q dfltOpening)
          traceHash
        && decide (((proof.layerProofs.layers.getD ell ⟨[]⟩).openings.getD q
              dfltOpening).index
            = ((proof.queries.getD q dfltQuery).perLayerRefs.getD ell dfltRef).i)
        && deepCheck z
            ((proof.queries.getD q dfltQuery).perLayerPayloads.getD ell
              dfltPayload)
        && foldCheck
            ((proof.queries.getD q dfltQuery).perLayerPayloads.getD ell
              dfltPayload)) := rfl

/-- Claim C3: the Merkle opening check depends only on
(opening.leaf, opening.path, opening.index, root), and the payload
values are never hashed or compared against the opened leaf;
consequently, for two proofs that agree on everything except the
per-layer payload 9-tuples, and that both satisfy the DEEP equation,
the fold-consistency equality and the final-pair equality at all
checked (query, layer) positions, the verifier returns the same
verdict. -/
theorem claim_C3_payload_independence (O : FriOracle F)
    (params : DeepFriParams) (p1 p2 : DeepFriProof F)
    (hroots : p1.roots = p2.roots)
    (hlp : p1.layerProofs.layers = p2.layerProofs.layers)
    (hn0 : p1.n0 = p2.n0)
    (hom : p1.omega0 = p2.omega0)
    (hrefs : ∀ q < params.r, (p1.queries.getD q dfltQuery).perLayerRefs
        = (p2.queries.getD q dfltQuery).perLayerRefs)
    (hfidx : ∀ q < params.r, (p1.queries.getD q dfltQuery).finalIndex
        = (p2.queries.getD q dfltQuery).finalIndex)
    (hfin : ∀ q < params.r, (p1.queries.getD q dfltQuery).finalPair
        = (p2.queries.getD q dfltQuery).finalPair)
    (hch1 : ∀ q < params.r, ∀ ell < params.schedule.length,
      deepCheck (fsZ O params.schedule p1.n0 params.seedZ)
          ((p1.queries.getD q dfltQuery).perLayerPayloads.getD ell dfltPayload)
          = true
        ∧ foldCheck
          ((p1.queries.getD q dfltQuery).perLayerPayloads.getD ell dfltPayload)
          = true)
    (hch2 : ∀ q < params.r, ∀ ell < params.schedule.length,
      deepCheck (fsZ O params.schedule p2.n0 params.seedZ)
          ((p2.queries.getD q dfltQuery).perLayerPayloads.getD ell dfltPayload)
          = true
        ∧ foldCheck
          ((p2.queries.getD q dfltQuery).perLayerPayloads.getD ell dfltPayload)
          = true) :
    deepFriVerify O params p1 = deepFriVerify O params p2 := by
  rw [deepFriVerify_expand, deepFriVerify_expand]
  apply all_range_congr
  intro q hq
  have hfc : finalCheck (p1.queries.getD q dfltQuery)
      = finalCheck (p2.queries.getD q dfltQuery) := by
    rw [finalCheck, finalCheck, hfin q hq]
  rw [hfc]
  congr 1
  apply all_range_congr
  intro ell hell
  rw [verifyQueryLayer_expand, verifyQueryLayer_expand]
  rw [(hch1 q hq ell hell).1, (hch1 q hq ell hell).2,
    (hch2 q hq ell hell).1, (hch2 q hq ell hell).2]
  rw [hroots, hlp, hn0, hrefs q hq]

/-- Witness for C3 at a concrete instance: two one-query one-layer
proofs over ZMod 5 that differ only in the payload field x_i (1
versus 2) while both payloads trivially satisfy the DEEP and fold
checks (all other payload entries are 0). -/
theorem claim_C3_witness :
    (∀ q < 1, ∀ ell < ([2] : List Nat).length,
      deepCheck (fsZ (constOracle (ZMod 5)) [2] 2 0)
          (((DeepFriProof.mk [0] ⟨[⟨[⟨0, [], 0⟩]⟩]⟩
              [⟨[⟨0, 0, 0, 0⟩], [⟨0, 0, 0, 0, 0, 0, 1, 0, 0⟩], 0, (0, 0)⟩]
              2 1 : DeepFriProof (ZMod 5)).queries.getD q
            dfltQuery).perLayerPayloads.getD ell dfltPayload) = true
        ∧ foldCheck (((DeepFriProof.mk [0] ⟨[⟨[⟨0, [], 0⟩]⟩]⟩
              [⟨[⟨0, 0, 0, 0⟩], [⟨0, 0, 0, 0, 0, 0, 1, 0, 0⟩], 0, (0, 0)⟩]
              2 1 : DeepFriProof (ZMod 5)).queries.getD q
            dfltQuery).perLayerPayloads.getD ell dfltPayload) = true)
    ∧ deepFriVerify (constOracle (ZMod 5)) ⟨[2], 1, 0⟩
        (DeepFriProof.mk [0] ⟨[⟨[⟨0, [], 0⟩]⟩]⟩
          [⟨[⟨0, 0, 0, 0⟩], [⟨0, 0, 0, 0, 0, 0, 1, 0, 0⟩], 0, (0, 0)⟩] 2 1)
      = deepFriVerify (constOracle (ZMod 5)) ⟨[2], 1, 0⟩
        (DeepFriProof.mk [0] ⟨[⟨[⟨0, [], 0⟩]⟩]⟩
          [⟨[⟨0, 0, 0, 0⟩], [⟨0, 0, 0, 0, 0, 0, 2, 0, 0⟩], 0, (0, 0)⟩] 2 1) :=
  ⟨by decide,
    claim_C3_payload_independence (constOracle (ZMod 5)) ⟨[2], 1, 0⟩
      (DeepFriProof.mk [0] ⟨[⟨[⟨0, [], 0⟩]⟩]⟩
        [⟨[⟨0, 0, 0, 0⟩], [⟨0, 0, 0, 0, 0, 0, 1, 0, 0⟩], 0, (0, 0)⟩] 2 1)
      (DeepFriProof.mk [0] ⟨[⟨[⟨0, [], 0⟩]⟩]⟩
        [⟨[⟨0, 0, 0, 0⟩], [⟨0, 0, 0, 0, 0, 0, 2, 0, 0⟩], 0, (0, 0)⟩] 2 1)
      rfl rfl rfl rfl (by decide) (by decide) (by decide) (by decide)
      (by decide)⟩

end ClaimPayloadIndependence

/-! ## Infrastructure for end-to-end completeness (claim C1) -/

theorem getD_tail {α : Type} (l : List α) (i : Nat) (d : α) :
    l.tail.getD i d = l.getD (i + 1) d := by
  cases l <;> rfl

section SizesLemmas

theorem sizes_length (n0 : Nat) (sched : List Nat) :
    (layerSizesFromSchedule n0 sched).length = sched.length + 1 := by
  induction sched generalizing n0 with
  | nil => rfl
  | cons m rest ih =>
    simp only [layerSizesFromSchedule, List.length_cons]
    rw [ih]

theorem sizes_zero (n0 : Nat) (sched : List Nat) :
    (layerSizesFromSchedule n0 sched).getD 0 0 = n0 := by
  cases sched <;> rfl

theorem sizes_succ (n0 : Nat) (sched : List Nat) :
    ∀ ell < sched.length,
    (layerSizesFromSchedule n0 sched).getD (ell + 1) 0
      = (layerSizesFromSchedule n0 sched).getD ell 0 / sched.getD ell 0 := by
  induction sched generalizing n0 with
  | nil => intro ell h; simp at h
  | cons m rest ih =>
    intro ell hell
    cases ell with
    | zero =>
      simp only [layerSizesFromSchedule, List.getD_cons_succ, List.getD_cons_zero]
      rw [sizes_zero]
    | succ e =>
      simp only [layerSizesFromSchedule, List.getD_cons_succ]
      have he : e < rest.length := by
        simp at hell
        omega
      exact ih (n0 / m) e he

theorem sizes_suffix_prod (sched : List Nat) :
    ∀ (n0 : Nat), (∀ m ∈ sched, 0 < m) → sched.prod = n0 →
    ∀ ell ≤ sched.length,
    (layerSizesFromSchedule n0 sched).getD ell 0 = (sched.drop ell).prod := by
  induction sched with
  | nil =>
    intro n0 _ hprod ell hell
    have hz : ell = 0 := by
      simp at hell
      omega
    subst hz
    simpa [layerSizesFromSchedule] using hprod.symm
  | cons m rest ih =>
    intro n0 hmem hprod ell hell
    cases ell with
    | zero =>
      simpa [layerSizesFromSchedule] using hprod.symm
    | succ e =>
      simp only [layerSizesFromSchedule, List.getD_cons_succ, List.drop_succ_cons]
      have hmpos : 0 < m := hmem m (List.mem_cons_self m rest)
      have hdiv : rest.prod = n0 / m := by
        rw [← hprod, List.prod_cons, Nat.mul_div_cancel_left _ hmpos]
      have he : e ≤ rest.length := by
        simp at hell
        omega
      exact ih (n0 / m) (fun x hx => hmem x (List.mem_cons_of_mem m hx)) hdiv e he

theorem suffix_prod_pos (sched : List Nat) (hmem : ∀ m ∈ sched, 2 ≤ m) :
    ∀ ell, 0 < (sched.drop ell).prod := by
  intro ell
  apply List.prod_pos
  intro x hx
  have := hmem x (List.mem_of_mem_drop hx)
  omega

theorem drop_prod_cons (sched : List Nat) :
    ∀ ell < sched.length,
    (sched.drop ell).prod = sched.getD ell 0 * (sched.drop (ell + 1)).prod := by
  induction sched with
  | nil => intro ell h; simp at h
  | cons m rest ih =>
    intro ell hell
    cases ell with
    | zero => simp
    | succ e =>
      simp only [List.drop_succ_cons, List.getD_cons_succ]
      exact ih e (by simpa using Nat.lt_of_succ_lt_succ hell)

end SizesLemmas

section BuildLemmas

variable {F : Type} [Field F] [DecidableEq F]

theorem buildFLayers_fst_zero (O : FriOracle F) (z : Fp3 F)
    (sched : List Nat) (curF : List F) (sz : Nat) :
    (buildFLayers O z sched curF sz).1.getD 0 [] = curF := by
  cases sched <;> rfl

theorem buildFLayers_fold (O : FriOracle F) (z : Fp3 F) :
    ∀ (sched : List Nat) (curF : List F) (sz : Nat) (ell : Nat),
    ell < sched.length →
    (buildFLayers O z sched curF sz).1.getD (ell + 1) []
      = friFoldLayer O ((buildFLayers O z sched curF sz).1.getD ell [])
          z.a0 (sched.getD ell 0) := by
  intro sched
  induction sched with
  | nil => intro curF sz ell h; simp at h
  | cons m rest ih =>
    intro curF sz ell hell
    cases ell with
    | zero =>
      simp only [buildFLayers, List.getD_cons_succ, List.getD_cons_zero]
      rw [buildFLayers_fst_zero]
    | succ e =>
      simp only [buildFLayers, List.getD_cons_succ]
      exact ih _ _ e (by simpa using Nat.lt_of_succ_lt_succ hell)

theorem buildFLayers_omega (O : FriOracle F) (z : Fp3 F) :
    ∀ (sched : List Nat) (curF : List F) (sz : Nat) (ell : Nat),
    ell < sched.length →
    (buildFLayers O z sched curF sz).2.2.getD ell 0
      = O.groupGen ((layerSizesFromSchedule sz sched).getD ell 0) := by
  intro sched
  induction sched with
  | nil => intro curF sz ell h; simp at h
  | cons m rest ih =>
    intro curF sz ell hell
    cases ell with
    | zero =>
      simp only [buildFLayers, List.getD_cons_zero]
      rw [sizes_zero]
    | succ e =>
      simp only [buildFLayers, List.getD_cons_succ, layerSizesFromSchedule]
      exact ih _ _ e (by simpa using Nat.lt_of_succ_lt_succ hell)

theorem buildFLayers_q (O : FriOracle F) (z : Fp3 F) :
    ∀ (sched : List Nat) (curF : List F) (sz : Nat) (ell : Nat),
    ell < sched.length →
    (buildFLayers O z sched curF sz).2.1.getD ell []
      = computeQLayerFp3 ((buildFLayers O z sched curF sz).1.getD ell []) z
          ((buildFLayers O z sched curF sz).2.2.getD ell 0) := by
  intro sched
  induction sched with
  | nil => intro curF sz ell h; simp at h
  | cons m rest ih =>
    intro curF sz ell hell
    cases ell with
    | zero =>
      simp only [buildFLayers, List.getD_cons_zero]
    | succ e =>
      simp only [buildFLayers, List.getD_cons_succ]
      exact ih _ _ e (by simpa using Nat.lt_of_succ_lt_succ hell)

theorem buildFLayers_len (O : FriOracle F) (z : Fp3 F) :
    ∀ (sched : List Nat) (curF : List F) (sz : Nat), curF.length = sz →
    ∀ ell ≤ sched.length,
    ((buildFLayers O z sched curF sz).1.getD ell []).length
      = (layerSizesFromSchedule sz sched).getD ell 0 := by
  intro sched
  induction sched with
  | nil =>
    intro curF sz hcur ell hell
    have hz : ell = 0 := by
      simp at hell
      omega
    subst hz
    simpa [buildFLayers, layerSizesFromSchedule] using hcur
  | cons m rest ih =>
    intro curF sz hcur ell hell
    cases ell with
    | zero =>
      simp only [buildFLayers, List.getD_cons_zero, layerSizesFromSchedule]
      simpa using hcur
    | succ e =>
      simp only [buildFLayers, List.getD_cons_succ, layerSizesFromSchedule]
      have he : e ≤ rest.length := by
        simp at hell
        omega
      refine ih _ _ ?_ e he
      rw [friFoldLayer_length, hcur]

end BuildLemmas

section WalkLemmas

variable {F : Type} [Field F] [DecidableEq F]

theorem queryWalk_fst_length :
    ∀ (sched : List Nat) (layers : List (FriLayerCommitment F)) (i : Nat),
    (queryWalk sched layers i).1.length = sched.length := by
  intro sched
  induction sched with
  | nil => intro layers i; rfl
  | cons m rest ih =>
    intro layers i
    simp only [queryWalk, List.length_cons]
    rw [ih]

theorem queryWalk_spec :
    ∀ (sched : List Nat) (layers : List (FriLayerCommitment F)) (i : Nat),
    (∀ ell < sched.length, 0 < (layers.getD ell dfltCommit).n / sched.getD ell 0) →
    (∀ ell, ell + 1 < sched.length →
      (layers.getD (ell + 1) dfltCommit).n
        = (layers.getD ell dfltCommit).n / sched.getD ell 0) →
    (0 < sched.length → i < (layers.getD 0 dfltCommit).n) →
    (∀ ell < sched.length,
      ∃ v < (layers.getD ell dfltCommit).n,
        (queryWalk sched layers i).1.getD ell dfltRef
          = ⟨v, v % sched.getD ell 0,
              v % ((layers.getD ell dfltCommit).n / sched.getD ell 0), 0⟩)
    ∧ (0 < sched.length → (queryWalk sched layers i).2
        < (layers.getD (sched.length - 1) dfltCommit).n
            / sched.getD (sched.length - 1) 0) := by
  intro sched
  induction sched with
  | nil =>
    intro layers i _ _ _
    exact ⟨fun ell h => by simp at h, fun h => by simp at h⟩
  | cons m rest ih =>
    intro layers i hpos hchain hi
    have hhead : (layers.headD dfltCommit).n = (layers.getD 0 dfltCommit).n := by
      cases layers <;> rfl
    have hi0 : i < (layers.getD 0 dfltCommit).n := hi (by simp)
    have hn0pos : 0 < (layers.getD 0 dfltCommit).n / m := by
      simpa using hpos 0 (by simp)
    have hnext : i % ((layers.headD dfltCommit).n / m)
        < (layers.getD 0 dfltCommit).n / m := by
      rw [hhead]
      exact Nat.mod_lt _ hn0pos
    have htpos : ∀ ell < rest.length,
        0 < (layers.tail.getD ell dfltCommit).n / rest.getD ell 0 := by
      intro ell hell
      rw [getD_tail]
      simpa using hpos (ell + 1) (by simpa using Nat.succ_lt_succ hell)
    have htchain : ∀ ell, ell + 1 < rest.length →
        (layers.tail.getD (ell + 1) dfltCommit).n
          = (layers.tail.getD ell dfltCommit).n / rest.getD ell 0 := by
      intro ell hell
      rw [getD_tail, getD_tail]
      simpa using hchain (ell + 1) (by simpa using Nat.succ_lt_succ hell)
    have hti : 0 < rest.length →
        i % ((layers.headD dfltCommit).n / m)
          < (layers.tail.getD 0 dfltCommit).n := by
      intro hrest
      rw [getD_tail]
      rw [hchain 0 (by simpa using Nat.succ_lt_succ hrest)]
      exact hnext
    have hrec := ih layers.tail (i % ((layers.headD dfltCommit).n / m))
      htpos htchain hti
    constructor
    · intro ell hell
      cases ell with
      | zero =>
        refine ⟨i, hi0, ?_⟩
        simp only [queryWalk, List.getD_cons_zero]
        rw [hhead]
      | succ e =>
        have he : e < rest.length := by simpa using Nat.lt_of_succ_lt_succ hell
        obtain ⟨v, hv, heq⟩ := hrec.1 e he
        refine ⟨v, ?_, ?_⟩
        · rw [← getD_tail]
          exact hv
        · simp only [queryWalk, List.getD_cons_succ]
          rw [heq]
          rw [getD_tail]
    · intro _
      cases hrest : rest with
      | nil =>
        subst hrest
        simp only [queryWalk]
        simpa [hhead] using hnext
      | cons m2 r2 =>
        subst hrest
        have hrpos : 0 < (m2 :: r2).length := by simp
        have := hrec.2 hrpos
        simp only [queryWalk]
        rw [show (m :: m2 :: r2 : List Nat).length - 1
          = ((m2 :: r2 : List Nat).length - 1) + 1 by simp]
        rw [← getD_tail layers, ← getD_tail (m :: m2 :: r2)]
        exact this

end WalkLemmas

section StateLemmas

variable {F : Type} [Field F] [DecidableEq F]

theorem friLayerLeaves_length (fL sL : List F) (qL : List (Fp3 F)) (n : Nat) :
    (friLayerLeaves fL sL qL n).length = n := by
  simp [friLayerLeaves]

theorem fbt_fLayers (O : FriOracle F) (f0 : List F) (domain0 : FriDomain F)
    (pp : FriProverParams) :
    (friBuildTranscript O f0 domain0 pp).fLayers
      = (buildFLayers O (fsZ O pp.schedule domain0.size pp.seedZ)
          pp.schedule f0 domain0.size).1 := rfl

theorem fbt_qLayers (O : FriOracle F) (f0 : List F) (domain0 : FriDomain F)
    (pp : FriProverParams) :
    (friBuildTranscript O f0 domain0 pp).qLayers
      = (buildFLayers O (fsZ O pp.schedule domain0.size pp.seedZ)
          pp.schedule f0 domain0.size).2.1 := rfl

theorem fbt_omegaLayers (O : FriOracle F) (f0 : List F) (domain0 : FriDomain F)
    (pp : FriProverParams) :
    (friBuildTranscript O f0 domain0 pp).omegaLayers
      = (buildFLayers O (fsZ O pp.schedule domain0.size pp.seedZ)
          pp.schedule f0 domain0.size).2.2 := rfl

theorem fbt_schedule (O : FriOracle F) (f0 : List F) (domain0 : FriDomain F)
    (pp : FriProverParams) :
    (friBuildTranscript O f0 domain0 pp).transcript.schedule = pp.schedule := rfl

theorem fbt_sLayers_getD (O : FriOracle F) (f0 : List F)
    (domain0 : FriDomain F) (pp : FriProverParams) {ell : Nat}
    (hell : ell < pp.schedule.length) :
    (friBuildTranscript O f0 domain0 pp).sLayers.getD ell []
      = computeSLayer ((friBuildTranscript O f0 domain0 pp).fLayers.getD ell [])
          (fsZ O pp.schedule domain0.size pp.seedZ).a0
          (pp.schedule.getD ell 0) := by
  have hexp : (friBuildTranscript O f0 domain0 pp).sLayers
      = ((List.range pp.schedule.length).map fun e =>
          computeSLayer
            ((friBuildTranscript O f0 domain0 pp).fLayers.getD e [])
            (fsZ O pp.schedule domain0.size pp.seedZ).a0
            (pp.schedule.getD e 0))
        ++ [List.replicate
            (((friBuildTranscript O f0 domain0 pp).fLayers.getD
              pp.schedule.length []).length) 0] := rfl
  rw [hexp, getD_append_left _ (by simpa using hell), getD_range_map _ _ hell]

theorem fbt_layers_getD (O : FriOracle F) (f0 : List F)
    (domain0 : FriDomain F) (pp : FriProverParams) {ell : Nat}
    (hell : ell < pp.schedule.length) :
    (friBuildTranscript O f0 domain0 pp).transcript.layers.getD ell dfltCommit
      = friCommitLayer O
          (O.serializeF (O.friSeedChal pp.schedule domain0.size pp.seedZ))
          (pp.schedule.getD ell 0) ell
          ((friBuildTranscript O f0 domain0 pp).fLayers.getD ell [])
          ((friBuildTranscript O f0 domain0 pp).sLayers.getD ell [])
          ((friBuildTranscript O f0 domain0 pp).qLayers.getD ell []) := by
  have hexp : (friBuildTranscript O f0 domain0 pp).transcript.layers
      = (List.range pp.schedule.length).map fun e =>
          friCommitLayer O
            (O.serializeF (O.friSeedChal pp.schedule domain0.size pp.seedZ))
            (pp.schedule.getD e 0) e
            ((friBuildTranscript O f0 domain0 pp).fLayers.getD e [])
            ((friBuildTranscript O f0 domain0 pp).sLayers.getD e [])
            ((friBuildTranscript O f0 domain0 pp).qLayers.getD e []) := rfl
  rw [hexp, getD_range_map _ _ hell]

theorem fbt_layers_length (O : FriOracle F) (f0 : List F)
    (domain0 : FriDomain F) (pp : FriProverParams) :
    (friBuildTranscript O f0 domain0 pp).transcript.layers.length
      = pp.schedule.length := by
  have hexp : (friBuildTranscript O f0 domain0 pp).transcript.layers
      = (List.range pp.schedule.length).map fun e =>
          friCommitLayer O
            (O.serializeF (O.friSeedChal pp.schedule domain0.size pp.seedZ))
            (pp.schedule.getD e 0) e
            ((friBuildTranscript O f0 domain0 pp).fLayers.getD e [])
            ((friBuildTranscript O f0 domain0 pp).sLayers.getD e [])
            ((friBuildTranscript O f0 domain0 pp).qLayers.getD e []) := rfl
  rw [hexp]
  simp

theorem dfp_n0 (O : FriOracle F) (f0 : List F) (domain0 : FriDomain F)
    (params : DeepFriParams) :
    (deepFriProve O f0 domain0 params).n0 = domain0.size := rfl

theorem dfp_roots_getD (O : FriOracle F) (f0 : List F) (domain0 : FriDomain F)
    (params : DeepFriParams) {ell : Nat}
    (hell : ell < params.schedule.length) :
    (deepFriProve O f0 domain0 params).roots.getD ell 0
      = ((friBuildTranscript O f0 domain0
          ⟨params.schedule, params.seedZ⟩).transcript.layers.getD ell
            dfltCommit).root := by
  have hexp : (deepFriProve O f0 domain0 params).roots
      = (friBuildTranscript O f0 domain0
          ⟨params.schedule, params.seedZ⟩).transcript.layers.map
          fun lc => lc.root := rfl
  rw [hexp, getD_map_lt _ _ 0 dfltCommit
    (by rw [fbt_layers_length]; exact hell)]

theorem dfp_queries_getD (O : FriOracle F) (f0 : List F)
    (domain0 : FriDomain F) (params : DeepFriParams) {q : Nat}
    (hq : q < params.r) :
    (deepFriProve O f0 domain0 params).queries.getD q dfltQuery
      = friQueryPayloadAt
          (friBuildTranscript O f0 domain0 ⟨params.schedule, params.seedZ⟩)
          (friQueryOpeningsAt O
            (friBuildTranscript O f0 domain0 ⟨params.schedule, params.seedZ⟩)
            (O.fsSeedFromRoots
              ((friBuildTranscript O f0 domain0
                ⟨params.schedule, params.seedZ⟩).transcript.layers.map
                fun lc => lc.root)) q) := by
  have hexp : (deepFriProve O f0 domain0 params).queries
      = ((List.range params.r).map
          (friQueryOpeningsAt O
            (friBuildTranscript O f0 domain0 ⟨params.schedule, params.seedZ⟩)
            (O.fsSeedFromRoots
              ((friBuildTranscript O f0 domain0
                ⟨params.schedule, params.seedZ⟩).transcript.layers.map
                fun lc => lc.root)))).map
          (friQueryPayloadAt
            (friBuildTranscript O f0 domain0
              ⟨params.schedule, params.seedZ⟩)) := rfl
  rw [hexp, getD_map_lt _ _ dfltQuery dfltQO (by simpa using hq),
    getD_range_map _ _ hq]

theorem layerProof_mk_openings (l : List (MerkleOpening F)) :
    (LayerProof.mk l).openings = l := rfl

theorem dfp_opening_getD (O : FriOracle F) (f0 : List F)
    (domain0 : FriDomain F) (params : DeepFriParams) {q ell : Nat}
    (hq : q < params.r) (hell : ell < params.schedule.length) :
    ((deepFriProve O f0 domain0 params).layerProofs.layers.getD ell
        ⟨[]⟩).openings.getD q dfltOpening
      = openAt
          (friLayerTreeLevels O
            (friBuildTranscript O f0 domain0 ⟨params.schedule, params.seedZ⟩)
            (O.serializeF (O.fsSeedFromRoots
              ((friBuildTranscript O f0 domain0
                ⟨params.schedule, params.seedZ⟩).transcript.layers.map
                fun lc => lc.root))) ell)
          (friLayerCfg
            (((friBuildTranscript O f0 domain0
              ⟨params.schedule, params.seedZ⟩).transcript.layers.getD ell
                dfltCommit).n)
            (((friBuildTranscript O f0 domain0
              ⟨params.schedule, params.seedZ⟩).transcript.layers.getD ell
                dfltCommit).m) ell).layerArities
          ((friQueryOpeningsAt O
              (friBuildTranscript O f0 domain0 ⟨params.schedule, params.seedZ⟩)
              (O.fsSeedFromRoots
                ((friBuildTranscript O f0 domain0
                  ⟨params.schedule, params.seedZ⟩).transcript.layers.map
                  fun lc => lc.root)) q).perLayerRefs.getD ell dfltRef).i := by
  have hexp : (deepFriProve O f0 domain0 params).layerProofs.layers
      = (List.range params.schedule.length).map fun e =>
          LayerProof.mk ((List.range params.r).map fun q2 =>
            openAt
              (friLayerTreeLevels O
                (friBuildTranscript O f0 domain0
                  ⟨params.schedule, params.seedZ⟩)
                (O.serializeF (O.fsSeedFromRoots
                  ((friBuildTranscript O f0 domain0
                    ⟨params.schedule, params.seedZ⟩).transcript.layers.map
                    fun lc => lc.root))) e)
              (friLayerCfg
                (((friBuildTranscript O f0 domain0
                  ⟨params.schedule, params.seedZ⟩).transcript.layers.getD e
                    dfltCommit).n)
                (((friBuildTranscript O f0 domain0
                  ⟨params.schedule, params.seedZ⟩).transcript.layers.getD e
                    dfltCommit).m) e).layerArities
              (((((List.range params.r).map
                  (friQueryOpeningsAt O
                    (friBuildTranscript O f0 domain0
                      ⟨params.schedule, params.seedZ⟩)
                    (O.fsSeedFromRoots
                      ((friBuildTranscript O f0 domain0
                        ⟨params.schedule, params.seedZ⟩).transcript.layers.map
                        fun lc => lc.root)))).getD q2
                  dfltQO).perLayerRefs.getD e dfltRef).i)) := rfl
  rw [hexp, getD_range_map _ _ hell, layerProof_mk_openings,
    getD_range_map _ _ hq, getD_range_map _ _ hq]


theorem friCommitLayer_n (O : FriOracle F) (traceHash : List Nat)
    (mEll ell : Nat) (fL sL : List F) (qL : List (Fp3 F)) :
    (friCommitLayer O traceHash mEll ell fL sL qL).n = fL.length := rfl

theorem friCommitLayer_m (O : FriOracle F) (traceHash : List Nat)
    (mEll ell : Nat) (fL sL : List F) (qL : List (Fp3 F)) :
    (friCommitLayer O traceHash mEll ell fL sL qL).m = mEll := rfl

theorem getD_mem {α : Type} :
    ∀ (l : List α) (i : Nat) (d : α), i < l.length → l.getD i d ∈ l := by
  intro l
  induction l with
  | nil => intro i d h; simp at h
  | cons a t ih =>
    intro i d h
    cases i with
    | zero => simp
    | succ j =>
      simp only [List.getD_cons_succ]
      exact List.mem_cons_of_mem a (ih j d (by simpa using Nat.lt_of_succ_lt_succ h))

/-- The DEEP check of the verifier passes on the payload the prover
materializes at a layer, given the q-layer is the DEEP quotient of the
f-layer (as `fri_build_transcript` constructs it) and all three
denominators are nonzero. -/
theorem deepCheck_payload (st : FriProverState F) (qo : FriQueryOpenings F)
    (z : Fp3 F) (ell : Nat)
    (hql : st.qLayers.getD ell []
      = computeQLayerFp3 (st.fLayers.getD ell []) z (st.omegaLayers.getD ell 0))
    (hi : (qo.perLayerRefs.getD ell dfltRef).i < (st.fLayers.getD ell []).length)
    (h0 : (st.omegaLayers.getD ell 0) ^ (qo.perLayerRefs.getD ell dfltRef).i
        - z.a0 ≠ 0)
    (h1 : (st.omegaLayers.getD ell 0) ^ (qo.perLayerRefs.getD ell dfltRef).i
        - z.a1 ≠ 0)
    (h2 : (st.omegaLayers.getD ell 0) ^ (qo.perLayerRefs.getD ell dfltRef).i
        - z.a2 ≠ 0) :
    deepCheck z (friPayloadAt st qo ell) = true := by
  have hkey := computeQ_mul_denom (st.fLayers.getD ell []) z
    (st.omegaLayers.getD ell 0) hi h0 h1 h2
  rw [← hql] at hkey
  dsimp only [deepCheck, friPayloadAt]
  rw [decide_eq_true_eq]
  have heta : ∀ w : Fp3 F, Fp3.mk w.a0 w.a1 w.a2 = w := fun w => rfl
  have hsub : ∀ a b : F, Fp3.fromBase (a - b)
      = Fp3.fromBase a - Fp3.fromBase b := fun a b => rfl
  rw [heta, hsub]
  exact hkey

/-- The fold-consistency check of the verifier passes on the payload
the prover materializes at a layer, given the s-layer and next f-layer
are as `fri_build_transcript` constructs them and the walk's parent
index is the strided residue. -/
theorem foldCheck_payload (O : FriOracle F) (st : FriProverState F)
    (qo : FriQueryOpenings F) (z : F) (m ell : Nat) (hm : 0 < m)
    (hs : st.sLayers.getD ell []
      = computeSLayer (st.fLayers.getD ell []) z m)
    (hf : st.fLayers.getD (ell + 1) []
      = friFoldLayer O (st.fLayers.getD ell []) z m)
    (hdvd : m ∣ (st.fLayers.getD ell []).length)
    (hi : (qo.perLayerRefs.getD ell dfltRef).i < (st.fLayers.getD ell []).length)
    (hpi : (qo.perLayerRefs.getD ell dfltRef).parentIndex
      = (qo.perLayerRefs.getD ell dfltRef).i
          % ((st.fLayers.getD ell []).length / m)) :
    foldCheck (friPayloadAt st qo ell) = true := by
  dsimp only [foldCheck, friPayloadAt]
  rw [decide_eq_true_eq]
  rw [hs, hf, hpi, computeSLayer_getD _ _ _ hm hdvd hi]
  rfl

/-- Honest-opening completeness at the FRI layer configuration: an
opening extracted from the rebuilt tree of a layer verifies against
the root committed for the same leaves, for arbitrary (ignored)
trace-hash values. -/
theorem friLayerCfg_merkle_complete (hashF : DsLabel → List F → F)
    (n m ell : Nat) (th1 th2 th3 : List Nat)
    (fL sL : List F) (qL : List (Fp3 F)) (idx : Nat) (hidx : idx < n) :
    verifyOpening hashF (friLayerCfg n m ell)
      (treeRoot hashF (friLayerCfg n m ell) th1 (friLayerLeaves fL sL qL n))
      (openAt (treeLevels hashF (friLayerCfg n m ell) th2
          (friLayerLeaves fL sL qL n))
        (friLayerCfg n m ell).layerArities idx) th3 = true := by
  apply verifyOpening_complete
  · rw [friLayerLeaves_length]
    exact hidx
  · intro a ha
    rw [show (friLayerCfg n m ell).layerArities
      = List.replicate (merkleDepth n (max (pickArityForLayer n m) 2))
          (max (pickArityForLayer n m) 2) from rfl] at ha
    rw [List.eq_of_mem_replicate ha]
    exact le_max_right _ _
  · exact buildLevels_replicate_last_one hashF ell
      (max (pickArityForLayer n m) 2) (le_max_right _ _) n 0
      (levelZero hashF (friLayerCfg n m ell) (friLayerLeaves fL sL qL n))
      (by rw [levelZero_length, friLayerLeaves_length]) (by omega)

theorem friCommitLayer_root (O : FriOracle F) (traceHash : List Nat)
    (mEll ell : Nat) (fL sL : List F) (qL : List (Fp3 F)) :
    (friCommitLayer O traceHash mEll ell fL sL qL).root
      = treeRoot O.hashF (friLayerCfg fL.length mEll ell) traceHash
          (friLayerLeaves fL sL qL fL.length) := rfl

/-- One (query, layer) check of `deep_fri_verify` passes on an
honestly generated proof, given the prover-state facts established by
the transcript lemmas: the opening comes from the rebuilt layer tree
at the walk's index, the payload is the prover's materialization, the
committed root is over the same leaves, the layer sizes/arity metadata
match the size schedule, the q/s/f layers satisfy the construction
equations, and the DEEP denominators are nonzero. -/
theorem verifyQueryLayer_complete (O : FriOracle F) (params : DeepFriParams)
    (proof : DeepFriProof F) (st : FriProverState F) (rootsSeed : F)
    (z : Fp3 F) (thV thP : List Nat) (sizes : List Nat) (q ell : Nat)
    (hell : ell < params.schedule.length)
    (hopen : (proof.layerProofs.layers.getD ell ⟨[]⟩).openings.getD q
        dfltOpening
      = openAt (friLayerTreeLevels O st (O.serializeF rootsSeed) ell)
          (friLayerCfg (st.transcript.layers.getD ell dfltCommit).n
            (st.transcript.layers.getD ell dfltCommit).m ell).layerArities
          ((friQueryOpeningsAt O st rootsSeed q).perLayerRefs.getD ell
            dfltRef).i)
    (hqr : proof.queries.getD q dfltQuery
      = friQueryPayloadAt st (friQueryOpeningsAt O st rootsSeed q))
    (hroot : proof.roots.getD ell 0
      = (st.transcript.layers.getD ell dfltCommit).root)
    (hschedeq : st.transcript.schedule = params.schedule)
    (hln : (st.transcript.layers.getD ell dfltCommit).n = sizes.getD ell 0)
    (hlm : (st.transcript.layers.getD ell dfltCommit).m
      = params.schedule.getD ell 0)
    (hfln : (st.fLayers.getD ell []).length = sizes.getD ell 0)
    (hlayget : st.transcript.layers.getD ell dfltCommit
      = friCommitLayer O thP (params.schedule.getD ell 0) ell
          (st.fLayers.getD ell []) (st.sLayers.getD ell [])
          (st.qLayers.getD ell []))
    (hql : st.qLayers.getD ell []
      = computeQLayerFp3 (st.fLayers.getD ell []) z (st.omegaLayers.getD ell 0))
    (homega : st.omegaLayers.getD ell 0 = O.groupGen (sizes.getD ell 0))
    (hs : st.sLayers.getD ell []
      = computeSLayer (st.fLayers.getD ell []) z.a0 (params.schedule.getD ell 0))
    (hf : st.fLayers.getD (ell + 1) []
      = friFoldLayer O (st.fLayers.getD ell []) z.a0
          (params.schedule.getD ell 0))
    (hm : 0 < params.schedule.getD ell 0)
    (hdvd : params.schedule.getD ell 0 ∣ sizes.getD ell 0)
    (hwalk : ∃ v, v < sizes.getD ell 0
      ∧ (friQueryOpeningsAt O st rootsSeed q).perLayerRefs.getD ell dfltRef
        = ⟨v, v % params.schedule.getD ell 0,
            v % (sizes.getD ell 0 / params.schedule.getD ell 0), 0⟩)
    (hden0 : ∀ i < sizes.getD ell 0,
      O.groupGen (sizes.getD ell 0) ^ i - z.a0 ≠ 0)
    (hden1 : ∀ i < sizes.getD ell 0,
      O.groupGen (sizes.getD ell 0) ^ i - z.a1 ≠ 0)
    (hden2 : ∀ i < sizes.getD ell 0,
      O.groupGen (sizes.getD ell 0) ^ i - z.a2 ≠ 0) :
    verifyQueryLayer O params proof z thV sizes q ell = true := by
  obtain ⟨v, hv, heq⟩ := hwalk
  have hii : ((friQueryOpeningsAt O st rootsSeed q).perLayerRefs.getD ell
      dfltRef).i = v := by
    rw [heq]
  have hpi : ((friQueryOpeningsAt O st rootsSeed q).perLayerRefs.getD ell
      dfltRef).parentIndex
      = ((friQueryOpeningsAt O st rootsSeed q).perLayerRefs.getD ell dfltRef).i
        % ((st.fLayers.getD ell []).length / params.schedule.getD ell 0) := by
    rw [heq, hfln]
  have hpay : (proof.queries.getD q dfltQuery).perLayerPayloads.getD ell
      dfltPayload
      = friPayloadAt st (friQueryOpeningsAt O st rootsSeed q) ell := by
    rw [hqr]
    show ((List.range (friQueryOpeningsAt O st rootsSeed
        q).perLayerRefs.length).map
        (friPayloadAt st (friQueryOpeningsAt O st rootsSeed q))).getD ell
        dfltPayload = _
    have hrl : (friQueryOpeningsAt O st rootsSeed q).perLayerRefs.length
        = params.schedule.length := by
      show (queryWalk st.transcript.schedule st.transcript.layers
        (friInitialIndex O st.transcript.layers rootsSeed q)).1.length = _
      rw [queryWalk_fst_length, hschedeq]
    rw [hrl]
    exact getD_range_map _ _ hell
  rw [verifyQueryLayer_expand]
  simp only [Bool.and_eq_true]
  refine ⟨⟨⟨?_, ?_⟩, ?_⟩, ?_⟩
  · have htlv : friLayerTreeLevels O st (O.serializeF rootsSeed) ell
        = treeLevels O.hashF
            (friLayerCfg (sizes.getD ell 0) (params.schedule.getD ell 0) ell)
            (O.serializeF rootsSeed)
            (friLayerLeaves (st.fLayers.getD ell []) (st.sLayers.getD ell [])
              (st.qLayers.getD ell []) (sizes.getD ell 0)) := by
      show treeLevels O.hashF
          (friLayerCfg (st.transcript.layers.getD ell dfltCommit).n
            (st.transcript.layers.getD ell dfltCommit).m ell)
          (O.serializeF rootsSeed)
          (friLayerLeaves (st.fLayers.getD ell []) (st.sLayers.getD ell [])
            (st.qLayers.getD ell [])
            (st.transcript.layers.getD ell dfltCommit).n) = _
      rw [hln, hlm]
    rw [hopen, hroot, hln, hlm, hii, hlayget, friCommitLayer_root, hfln, htlv]
    exact friLayerCfg_merkle_complete O.hashF (sizes.getD ell 0)
      (params.schedule.getD ell 0) ell thP (O.serializeF rootsSeed) thV
      (st.fLayers.getD ell []) (st.sLayers.getD ell [])
      (st.qLayers.getD ell []) v hv
  · rw [hopen, hqr]
    exact decide_eq_true rfl
  · rw [hpay]
    refine deepCheck_payload st (friQueryOpeningsAt O st rootsSeed q) z ell
      hql ?_ ?_ ?_ ?_
    · rw [hii, hfln]
      exact hv
    · rw [homega, hii]
      exact hden0 v hv
    · rw [homega, hii]
      exact hden1 v hv
    · rw [homega, hii]
      exact hden2 v hv
  · rw [hpay]
    refine foldCheck_payload O st (friQueryOpeningsAt O st rootsSeed q) z.a0
      (params.schedule.getD ell 0) ell hm hs hf ?_ ?_ hpi
    · rw [hfln]
      exact hdvd
    · rw [hii, hfln]
      exact hv

/-- The per-query final-constancy check of `deep_fri_verify` passes on
an honestly generated proof whose query walk ends at final index 0
(which it always does when the schedule product equals n0, since the
final layer then has length 1). -/
theorem finalCheck_complete (O : FriOracle F) (params : DeepFriParams)
    (proof : DeepFriProof F) (st : FriProverState F) (rootsSeed : F) (q : Nat)
    (hqr : proof.queries.getD q dfltQuery
      = friQueryPayloadAt st (friQueryOpeningsAt O st rootsSeed q))
    (hw2 : (queryWalk st.transcript.schedule st.transcript.layers
        (friInitialIndex O st.transcript.layers rootsSeed q)).2 = 0) :
    finalCheck (proof.queries.getD q dfltQuery) = true := by
  rw [hqr]
  dsimp only [finalCheck, friQueryPayloadAt, friQueryOpeningsAt]
  rw [decide_eq_true_eq]
  rw [hw2]

end StateLemmas

/-! ## Claim C1: end-to-end completeness -/

section ClaimCompleteness

variable {F : Type} [Field F] [DecidableEq F]

set_option maxHeartbeats 4000000 in
/-- Claim C1: end-to-end completeness.  For every codeword f0 that is
the evaluation vector of a polynomial of degree < n0/32 over the
radix-2 domain of size n0, and every parameter set with a schedule of
power-of-two factors >= 2 whose product equals n0 and query count
r >= 1, with all DEEP-quotient denominators invertible (nonzero), the
verifier accepts the honestly generated proof:
`deep_fri_verify(params, deep_fri_prove(f0, domain0, params)) = true`. -/
theorem claim_C1_end_to_end_completeness (O : FriOracle F)
    (f0 : List F) (params : DeepFriParams) (n0 : Nat)
    (hlen : f0.length = n0)
    (hprod : params.schedule.prod = n0)
    (hne : params.schedule ≠ [])
    (hn32 : 32 ≤ n0)
    (hfactors : ∀ m ∈ params.schedule, 2 ≤ m ∧ ∃ k, m = 2 ^ k)
    (hr : 1 ≤ params.r)
    (hlow : ∃ c : List F, c.length ≤ n0 / 32
      ∧ f0 = dftEval (O.groupGen n0) n0 c)
    (hden : ∀ ell < params.schedule.length,
      ∀ i < (layerSizesFromSchedule n0 params.schedule).getD ell 0,
        (O.groupGen ((layerSizesFromSchedule n0 params.schedule).getD ell 0))
            ^ i - (fsZ O params.schedule n0 params.seedZ).a0 ≠ 0
        ∧ (O.groupGen ((layerSizesFromSchedule n0 params.schedule).getD ell 0))
            ^ i - (fsZ O params.schedule n0 params.seedZ).a1 ≠ 0
        ∧ (O.groupGen ((layerSizesFromSchedule n0 params.schedule).getD ell 0))
            ^ i - (fsZ O params.schedule n0 params.seedZ).a2 ≠ 0) :
    deepFriVerify O params
      (deepFriProve O f0 (FriDomain.newRadix2 O n0) params) = true := by
  have hm2 : ∀ m ∈ params.schedule, 2 ≤ m := fun m hm => (hfactors m hm).1
  have hmpos : ∀ m ∈ params.schedule, 0 < m := by
    intro m hm
    have := hm2 m hm
    omega
  have hsizes := sizes_suffix_prod params.schedule n0 hmpos hprod
  have hsizpos : ∀ ell ≤ params.schedule.length,
      0 < (layerSizesFromSchedule n0 params.schedule).getD ell 0 := by
    intro ell hell
    rw [hsizes ell hell]
    exact suffix_prod_pos params.schedule hm2 ell
  have hsizdvd : ∀ ell < params.schedule.length,
      params.schedule.getD ell 0
        ∣ (layerSizesFromSchedule n0 params.schedule).getD ell 0 := by
    intro ell hell
    rw [hsizes ell (le_of_lt hell), drop_prod_cons params.schedule ell hell]
    exact dvd_mul_right _ _
  have hsizsucc := sizes_succ n0 params.schedule
  have hsizlast : (layerSizesFromSchedule n0 params.schedule).getD
      params.schedule.length 0 = 1 := by
    rw [hsizes params.schedule.length (le_refl _), List.drop_length]
    rfl
  have hfln : ∀ ell ≤ params.schedule.length,
      ((friBuildTranscript O f0 (FriDomain.newRadix2 O n0)
          ⟨params.schedule, params.seedZ⟩).fLayers.getD ell []).length
        = (layerSizesFromSchedule n0 params.schedule).getD ell 0 := by
    intro ell hell
    exact buildFLayers_len O (fsZ O params.schedule n0 params.seedZ)
      params.schedule f0 n0 hlen ell hell
  have hlayget : ∀ ell < params.schedule.length,
      (friBuildTranscript O f0 (FriDomain.newRadix2 O n0)
          ⟨params.schedule, params.seedZ⟩).transcript.layers.getD ell dfltCommit
        = friCommitLayer O
            (O.serializeF (O.friSeedChal params.schedule n0 params.seedZ))
            (params.schedule.getD ell 0) ell
            ((friBuildTranscript O f0 (FriDomain.newRadix2 O n0)
              ⟨params.schedule, params.seedZ⟩).fLayers.getD ell [])
            ((friBuildTranscript O f0 (FriDomain.newRadix2 O n0)
              ⟨params.schedule, params.seedZ⟩).sLayers.getD ell [])
            ((friBuildTranscript O f0 (FriDomain.newRadix2 O n0)
              ⟨params.schedule, params.seedZ⟩).qLayers.getD ell []) := by
    intro ell hell
    exact fbt_layers_getD O f0 (FriDomain.newRadix2 O n0)
      ⟨params.schedule, params.seedZ⟩ hell
  have hlayn : ∀ ell < params.schedule.length,
      ((friBuildTranscript O f0 (FriDomain.newRadix2 O n0)
          ⟨params.schedule, params.seedZ⟩).transcript.layers.getD ell
            dfltCommit).n
        = (layerSizesFromSchedule n0 params.schedule).getD ell 0 := by
    intro ell hell
    rw [hlayget ell hell, friCommitLayer_n]
    exact hfln ell (le_of_lt hell)
  have hlaym : ∀ ell < params.schedule.length,
      ((friBuildTranscript O f0 (FriDomain.newRadix2 O n0)
          ⟨params.schedule, params.seedZ⟩).transcript.layers.getD ell
            dfltCommit).m
        = params.schedule.getD ell 0 := by
    intro ell hell
    rw [hlayget ell hell, friCommitLayer_m]
  have hn0p : (deepFriProve O f0 (FriDomain.newRadix2 O n0) params).n0
      = n0 := rfl
  rw [deepFriVerify_expand, hn0p]
  apply all_range_of_forall
  intro q hq
  have hi0 : 0 < params.schedule.length →
      friInitialIndex O
        (friBuildTranscript O f0 (FriDomain.newRadix2 O n0)
          ⟨params.schedule, params.seedZ⟩).transcript.layers
        (O.fsSeedFromRoots ((friBuildTranscript O f0 (FriDomain.newRadix2 O n0)
          ⟨params.schedule, params.seedZ⟩).transcript.layers.map
          fun lc => lc.root)) q
      < ((friBuildTranscript O f0 (FriDomain.newRadix2 O n0)
          ⟨params.schedule, params.seedZ⟩).transcript.layers.getD 0
            dfltCommit).n := by
    intro hL
    have hpos0 : 0 < ((friBuildTranscript O f0 (FriDomain.newRadix2 O n0)
        ⟨params.schedule, params.seedZ⟩).transcript.layers.getD 0
          dfltCommit).n := by
      rw [hlayn 0 hL]
      exact hsizpos 0 (Nat.zero_le _)
    exact Nat.mod_lt _ hpos0
  have hwpos : ∀ e < params.schedule.length,
      0 < ((friBuildTranscript O f0 (FriDomain.newRadix2 O n0)
          ⟨params.schedule, params.seedZ⟩).transcript.layers.getD e
            dfltCommit).n / params.schedule.getD e 0 := by
    intro e he
    rw [hlayn e he, ← hsizsucc e he]
    exact hsizpos (e + 1) he
  have hwchain : ∀ e, e + 1 < params.schedule.length →
      ((friBuildTranscript O f0 (FriDomain.newRadix2 O n0)
          ⟨params.schedule, params.seedZ⟩).transcript.layers.getD (e + 1)
            dfltCommit).n
        = ((friBuildTranscript O f0 (FriDomain.newRadix2 O n0)
            ⟨params.schedule, params.seedZ⟩).transcript.layers.getD e
              dfltCommit).n / params.schedule.getD e 0 := by
    intro e he
    rw [hlayn (e + 1) he, hlayn e (by omega)]
    exact hsizsucc e (by omega)
  have hwspec := queryWalk_spec params.schedule
    (friBuildTranscript O f0 (FriDomain.newRadix2 O n0)
      ⟨params.schedule, params.seedZ⟩).transcript.layers
    (friInitialIndex O
      (friBuildTranscript O f0 (FriDomain.newRadix2 O n0)
        ⟨params.schedule, params.seedZ⟩).transcript.layers
      (O.fsSeedFromRoots ((friBuildTranscript O f0 (FriDomain.newRadix2 O n0)
        ⟨params.schedule, params.seedZ⟩).transcript.layers.map
        fun lc => lc.root)) q) hwpos hwchain hi0
  have hwalkmk : ∀ ell, ell < params.schedule.length →
      ∃ v, v < (layerSizesFromSchedule n0 params.schedule).getD ell 0
        ∧ (friQueryOpeningsAt O
            (friBuildTranscript O f0 (FriDomain.newRadix2 O n0)
              ⟨params.schedule, params.seedZ⟩)
            (O.fsSeedFromRoots ((friBuildTranscript O f0
              (FriDomain.newRadix2 O n0)
              ⟨params.schedule, params.seedZ⟩).transcript.layers.map
              fun lc => lc.root)) q).perLayerRefs.getD ell dfltRef
          = ⟨v, v % params.schedule.getD ell 0,
              v % ((layerSizesFromSchedule n0 params.schedule).getD ell 0
                / params.schedule.getD ell 0), 0⟩ := by
    intro ell hell
    obtain ⟨v, hv, heq⟩ := hwspec.1 ell hell
    refine ⟨v, ?_, ?_⟩
    · rw [← hlayn ell hell]
      exact hv
    · have hq2 : (friQueryOpeningsAt O
          (friBuildTranscript O f0 (FriDomain.newRadix2 O n0)
            ⟨params.schedule, params.seedZ⟩)
          (O.fsSeedFromRoots ((friBuildTranscript O f0
            (FriDomain.newRadix2 O n0)
            ⟨params.schedule, params.seedZ⟩).transcript.layers.map
            fun lc => lc.root)) q).perLayerRefs
          = (queryWalk params.schedule
              (friBuildTranscript O f0 (FriDomain.newRadix2 O n0)
                ⟨params.schedule, params.seedZ⟩).transcript.layers
              (friInitialIndex O
                (friBuildTranscript O f0 (FriDomain.newRadix2 O n0)
                  ⟨params.schedule, params.seedZ⟩).transcript.layers
                (O.fsSeedFromRoots ((friBuildTranscript O f0
                  (FriDomain.newRadix2 O n0)
                  ⟨params.schedule, params.seedZ⟩).transcript.layers.map
                  fun lc => lc.root)) q)).1 := rfl
      rw [hq2, heq, hlayn ell hell]
  have hw2 : (queryWalk params.schedule
      (friBuildTranscript O f0 (FriDomain.newRadix2 O n0)
        ⟨params.schedule, params.seedZ⟩).transcript.layers
      (friInitialIndex O
        (friBuildTranscript O f0 (FriDomain.newRadix2 O n0)
          ⟨params.schedule, params.seedZ⟩).transcript.layers
        (O.fsSeedFromRoots ((friBuildTranscript O f0 (FriDomain.newRadix2 O n0)
          ⟨params.schedule, params.seedZ⟩).transcript.layers.map
          fun lc => lc.root)) q)).2 = 0 := by
    have hL : 0 < params.schedule.length := List.length_pos.mpr hne
    have hlt := hwspec.2 hL
    have hL1 : params.schedule.length - 1 < params.schedule.length := by omega
    rw [hlayn _ hL1] at hlt
    have hstep := hsizsucc (params.schedule.length - 1) hL1
    have hLeq : params.schedule.length - 1 + 1 = params.schedule.length := by
      omega
    rw [hLeq, hsizlast] at hstep
    rw [← hstep] at hlt
    omega
  simp only [Bool.and_eq_true]
  refine ⟨?_, ?_⟩
  · apply all_range_of_forall
    intro ell hell
    exact verifyQueryLayer_complete O params
      (deepFriProve O f0 (FriDomain.newRadix2 O n0) params)
      (friBuildTranscript O f0 (FriDomain.newRadix2 O n0)
        ⟨params.schedule, params.seedZ⟩)
      (O.fsSeedFromRoots ((friBuildTranscript O f0 (FriDomain.newRadix2 O n0)
        ⟨params.schedule, params.seedZ⟩).transcript.layers.map
        fun lc : FriLayerCommitment F => lc.root))
      (fsZ O params.schedule n0 params.seedZ)
      (O.serializeF (O.friSeedChal params.schedule n0 params.seedZ))
      (O.serializeF (O.friSeedChal params.schedule n0 params.seedZ))
      (layerSizesFromSchedule n0 params.schedule) q ell hell
      (dfp_opening_getD O f0 (FriDomain.newRadix2 O n0) params hq hell)
      (dfp_queries_getD O f0 (FriDomain.newRadix2 O n0) params hq)
      (dfp_roots_getD O f0 (FriDomain.newRadix2 O n0) params hell)
      rfl (hlayn ell hell) (hlaym ell hell) (hfln ell (le_of_lt hell))
      (hlayget ell hell)
      (buildFLayers_q O (fsZ O params.schedule n0 params.seedZ)
        params.schedule f0 n0 ell hell)
      (buildFLayers_omega O (fsZ O params.schedule n0 params.seedZ)
        params.schedule f0 n0 ell hell)
      (fbt_sLayers_getD O f0 (FriDomain.newRadix2 O n0)
        ⟨params.schedule, params.seedZ⟩ hell)
      (buildFLayers_fold O (fsZ O params.schedule n0 params.seedZ)
        params.schedule f0 n0 ell hell)
      (hmpos _ (getD_mem params.schedule ell 0 hell))
      (hsizdvd ell hell)
      (hwalkmk ell hell)
      (fun i hi => (hden ell hell i hi).1)
      (fun i hi => (hden ell hell i hi).2.1)
      (fun i hi => (hden ell hell i hi).2.2)
  · exact finalCheck_complete O params
      (deepFriProve O f0 (FriDomain.newRadix2 O n0) params)
      (friBuildTranscript O f0 (FriDomain.newRadix2 O n0)
        ⟨params.schedule, params.seedZ⟩)
      (O.fsSeedFromRoots ((friBuildTranscript O f0 (FriDomain.newRadix2 O n0)
        ⟨params.schedule, params.seedZ⟩).transcript.layers.map
        fun lc : FriLayerCommitment F => lc.root)) q
      (dfp_queries_getD O f0 (FriDomain.newRadix2 O n0) params hq)
      hw2

set_option maxRecDepth 100000 in
/-- Witness for C1 at a concrete instance: F = ZMod 5, the constant
oracle, n0 = 32, schedule [32], one query, and the constant codeword
(the evaluation vector of the degree-0 polynomial 3, which satisfies
the rate bound 1 <= 32/32); all DEEP denominators are 1 - 0 = 1. -/
theorem claim_C1_witness :
    (List.replicate 32 (3 : ZMod 5)).length = 32
    ∧ deepFriVerify (constOracle (ZMod 5)) ⟨[32], 1, 0⟩
        (deepFriProve (constOracle (ZMod 5)) (List.replicate 32 (3 : ZMod 5))
          (FriDomain.newRadix2 (constOracle (ZMod 5)) 32) ⟨[32], 1, 0⟩)
      = true :=
  ⟨by decide,
    claim_C1_end_to_end_completeness (constOracle (ZMod 5))
      (List.replicate 32 3) ⟨[32], 1, 0⟩ 32
      (by decide) (by decide) (by decide) (by decide)
      (fun m hm => by
        rw [List.mem_singleton] at hm
        subst hm
        exact ⟨by norm_num, 5, rfl⟩)
      (le_refl 1)
      ⟨[3], by norm_num, by decide⟩
      (by decide)⟩

end ClaimCompleteness

end StarkHas
